import Mathlib

/-!
Verification of the reel-cli film storage tool.

JavaScript strings are modelled as `List Char`.  Each definition is a
shallow embedding of the corresponding TypeScript function; file and
directory state is modelled explicitly further below.
-/

namespace Reel

/-- The character class `[<>:"/\\|?*]` of `FileHelpers.sanitizeFilename`. -/
def isInvalidChar (c : Char) : Bool :=
  c == '<' || c == '>' || c == ':' || c == '"' || c == '/' ||
  c == '\\' || c == '|' || c == '?' || c == '*'

/-- The JS `\s` class restricted to its ASCII members (space, tab, LF,
VT, FF, CR); titles in this code base contain no exotic Unicode space. -/
def isWsChar (c : Char) : Bool :=
  c == ' ' || c == '\t' || c == '\n' || c == '\r' ||
  c == Char.ofNat 11 || c == Char.ofNat 12

/-- Worker for `replRuns`; the flag records whether the scanner is
currently inside a run of characters satisfying `p` (whose single
replacement character has already been emitted). -/
def replRunsGo (p : Char → Bool) (r : Char) : Bool → List Char → List Char
  | _, [] => []
  | inRun, c :: cs =>
    if p c then (if inRun then [] else [r]) ++ replRunsGo p r true cs
    else c :: replRunsGo p r false cs

/-- Model of `String.prototype.replace(/X+/g, r)`: every maximal run of
characters satisfying `p` is replaced by the single character `r`. -/
def replRuns (p : Char → Bool) (r : Char) (l : List Char) : List Char :=
  replRunsGo p r false l

/-- Model of `.replace(/^-+|-+$/g, '')`: strip leading and trailing
hyphen runs. -/
def trimHyphens (l : List Char) : List Char :=
  ((l.dropWhile (· == '-')).reverse.dropWhile (· == '-')).reverse

/-- `FileHelpers.sanitizeFilename`: replace invalid characters by `-`,
whitespace runs by `-`, collapse hyphen runs, strip leading/trailing
hyphens, and truncate to 255 characters. -/
def sanitizeFilename (l : List Char) : List Char :=
  (trimHyphens
    (replRuns (· == '-') '-'
      (replRuns isWsChar '-'
        (l.map fun c => if isInvalidChar c then '-' else c)))).take 255

/-- Decimal digit character. -/
def digitChar (d : Nat) : Char := Char.ofNat (48 + d)

/-- Fuelled decimal rendering worker (the fuel only forces structural
termination; `natToChars` always supplies enough). -/
def natToCharsGo : Nat → Nat → List Char
  | 0, _ => []
  | fuel + 1, n =>
    if n < 10 then [digitChar n]
    else natToCharsGo fuel (n / 10) ++ [digitChar (n % 10)]

/-- Model of the template-literal rendering of a (natural) JS number:
its decimal numeral. -/
def natToChars (n : Nat) : List Char := natToCharsGo (n + 1) n

/-- `FileHelpers.createFilmDirectoryName`: `` `${filmId}-${sanitizedTitle}` ``. -/
def createFilmDirectoryName (filmId : Nat) (filmTitle : List Char) : List Char :=
  natToChars filmId ++ '-' :: sanitizeFilename filmTitle

/-- Model of `String.prototype.split(sep)` for a one-character
separator: `"".split('-') = [""]`, `"a-".split('-') = ["a",""]`. -/
def jsSplit (sep : Char) : List Char → List (List Char)
  | [] => [[]]
  | c :: cs =>
    if c == sep then [] :: jsSplit sep cs
    else
      match jsSplit sep cs with
      | [] => [[c]]
      | h :: t => (c :: h) :: t

/-- Model of `Array.prototype.join(sep)` for a one-character separator. -/
def jsJoin (sep : Char) : List (List Char) → List Char
  | [] => []
  | [x] => x
  | x :: xs => x ++ sep :: jsJoin sep xs

/-- `ExportCommand.extractFilmName`: split on `-`; when there are at
least two parts, drop the first and re-join. -/
def extractFilmName (filmDir : List Char) : List Char :=
  let parts := jsSplit '-' filmDir
  if parts.length > 1 then jsJoin '-' (parts.drop 1) else filmDir

/-- The sanitized value before truncation. -/
def sanitizeCore (l : List Char) : List Char :=
  trimHyphens
    (replRuns (· == '-') '-'
      (replRuns isWsChar '-'
        (l.map fun c => if isInvalidChar c then '-' else c)))

/-- Numeric value of a digit character. -/
def charVal (c : Char) : Nat := c.toNat - 48

/-- Decimal value of a digit string. -/
def digitsVal (l : List Char) : Nat := l.foldl (fun a c => 10 * a + charVal c) 0

/-- A 256-character title whose sanitized form ends in a hyphen
(truncation cuts just after the hyphen at position 254). -/
def longTitle : List Char := List.replicate 254 'a' ++ ['-', 'a']

/-- No two adjacent hyphens. -/
def noHH (a b : Char) : Prop := ¬(a = '-' ∧ b = '-')

/-! ### JSON values

JS objects that flow through `JSON.stringify` / `JSON.parse` are
modelled as JSON trees.  JS numbers are modelled as rationals (the
serialise/parse round trip carries them verbatim). -/

inductive Json where
  | null
  | boolean (b : Bool)
  | num (q : Rat)
  | str (s : List Char)
  | arr (xs : List Json)
  | obj (fields : List (List Char × Json))

/-- JS truthiness of a JSON value. -/
def Json.truthy : Json → Bool
  | .null => false
  | .boolean b => b
  | .num q => decide (q ≠ 0)
  | .str s => !s.isEmpty
  | .arr _ => true
  | .obj _ => true

/-- Property lookup on a JSON object (first binding wins). -/
def Json.getField (j : Json) (k : List Char) : Option Json :=
  match j with
  | .obj fields => (fields.find? (fun p => p.1 == k)).map (·.2)
  | _ => none

/-- `Array.prototype.includes` against a list of string constants. -/
def Json.isStrIn : Json → List (List Char) → Bool
  | .str s, names => names.contains s
  | _, _ => false

def Json.asStr : Json → Option (List Char)
  | .str s => some s
  | _ => none

def Json.asNum : Json → Option Rat
  | .num q => some q
  | _ => none

def Json.asBool : Json → Option Bool
  | .boolean b => some b
  | _ => none

def Json.asArr : Json → Option (List Json)
  | .arr xs => some xs
  | _ => none

/-! ### The Film record (src/types/film.ts) -/

structure Genre where
  id : Rat
  name : List Char
deriving DecidableEq

structure ProductionCompany where
  id : Rat
  name : List Char
  logoPath : Option (List Char)
  originCountry : List Char
deriving DecidableEq

structure ProductionCountry where
  iso31661 : List Char
  name : List Char
deriving DecidableEq

structure SpokenLanguage where
  englishName : List Char
  iso6391 : List Char
  name : List Char
deriving DecidableEq

structure Film where
  id : Nat
  title : List Char
  originalTitle : List Char
  overview : List Char
  releaseDate : List Char
  posterPath : Option (List Char)
  backdropPath : Option (List Char)
  genres : List Genre
  runtime : Rat
  voteAverage : Rat
  voteCount : Rat
  popularity : Rat
  status : List Char
  tagline : List Char
  budget : Rat
  revenue : Rat
  productionCompanies : List ProductionCompany
  productionCountries : List ProductionCountry
  spokenLanguages : List SpokenLanguage
  adult : Bool
  video : Bool
  originalLanguage : List Char
  imdbId : Option (List Char)
  homepage : Option (List Char)
deriving DecidableEq

/-- `JSON.stringify` omits properties whose value is `undefined`;
optional string fields therefore contribute a binding only when set. -/
def optStrField (k : List Char) : Option (List Char) → List (List Char × Json)
  | none => []
  | some s => [(k, Json.str s)]

def Genre.toJson (g : Genre) : Json :=
  .obj [("id".data, .num g.id), ("name".data, .str g.name)]

def ProductionCompany.toJson (c : ProductionCompany) : Json :=
  .obj ([("id".data, .num c.id), ("name".data, .str c.name)] ++
    optStrField "logoPath".data c.logoPath ++
    [("originCountry".data, .str c.originCountry)])

def ProductionCountry.toJson (c : ProductionCountry) : Json :=
  .obj [("iso31661".data, .str c.iso31661), ("name".data, .str c.name)]

def SpokenLanguage.toJson (l : SpokenLanguage) : Json :=
  .obj [("englishName".data, .str l.englishName), ("iso6391".data, .str l.iso6391),
    ("name".data, .str l.name)]

/-- The JSON image of a `Film` under `JSON.stringify` (field order as
declared; absent optional fields omitted). -/
def Film.toJson (f : Film) : Json :=
  .obj (
    ([("id".data, Json.num (f.id : Rat)),
     ("title".data, Json.str f.title),
     ("originalTitle".data, Json.str f.originalTitle),
     ("overview".data, Json.str f.overview),
     ("releaseDate".data, Json.str f.releaseDate)] : List (List Char × Json)) ++
    optStrField "posterPath".data f.posterPath ++
    optStrField "backdropPath".data f.backdropPath ++
    ([("genres".data, Json.arr (f.genres.map Genre.toJson)),
     ("runtime".data, Json.num f.runtime),
     ("voteAverage".data, Json.num f.voteAverage),
     ("voteCount".data, Json.num f.voteCount),
     ("popularity".data, Json.num f.popularity),
     ("status".data, Json.str f.status),
     ("tagline".data, Json.str f.tagline),
     ("budget".data, Json.num f.budget),
     ("revenue".data, Json.num f.revenue),
     ("productionCompanies".data,
       Json.arr (f.productionCompanies.map ProductionCompany.toJson)),
     ("productionCountries".data,
       Json.arr (f.productionCountries.map ProductionCountry.toJson)),
     ("spokenLanguages".data,
       Json.arr (f.spokenLanguages.map SpokenLanguage.toJson)),
     ("adult".data, Json.boolean f.adult),
     ("video".data, Json.boolean f.video),
     ("originalLanguage".data, Json.str f.originalLanguage)] :
       List (List Char × Json)) ++
    optStrField "imdbId".data f.imdbId ++
    optStrField "homepage".data f.homepage)

/-- Reading a JSON tree back as a `Film` (the interpretation under
which the unchecked `JSON.parse(data) as Film` cast is meaningful). -/
def Genre.fromJson (j : Json) : Option Genre := do
  let id ← (j.getField "id".data).bind Json.asNum
  let name ← (j.getField "name".data).bind Json.asStr
  pure ⟨id, name⟩

def ProductionCompany.fromJson (j : Json) : Option ProductionCompany := do
  let id ← (j.getField "id".data).bind Json.asNum
  let name ← (j.getField "name".data).bind Json.asStr
  let originCountry ← (j.getField "originCountry".data).bind Json.asStr
  pure ⟨id, name, (j.getField "logoPath".data).bind Json.asStr, originCountry⟩

def ProductionCountry.fromJson (j : Json) : Option ProductionCountry := do
  let iso ← (j.getField "iso31661".data).bind Json.asStr
  let name ← (j.getField "name".data).bind Json.asStr
  pure ⟨iso, name⟩

def SpokenLanguage.fromJson (j : Json) : Option SpokenLanguage := do
  let en ← (j.getField "englishName".data).bind Json.asStr
  let iso ← (j.getField "iso6391".data).bind Json.asStr
  let name ← (j.getField "name".data).bind Json.asStr
  pure ⟨en, iso, name⟩

def filmStrings (j : Json) :
    Option (List Char × List Char × List Char × List Char × List Char ×
      List Char × List Char) := do
  let title ← (j.getField "title".data).bind Json.asStr
  let originalTitle ← (j.getField "originalTitle".data).bind Json.asStr
  let overview ← (j.getField "overview".data).bind Json.asStr
  let releaseDate ← (j.getField "releaseDate".data).bind Json.asStr
  let status ← (j.getField "status".data).bind Json.asStr
  let tagline ← (j.getField "tagline".data).bind Json.asStr
  let originalLanguage ← (j.getField "originalLanguage".data).bind Json.asStr
  pure (title, originalTitle, overview, releaseDate, status, tagline,
    originalLanguage)

def filmNumbers (j : Json) : Option (Rat × Rat × Rat × Rat × Rat × Rat) := do
  let runtime ← (j.getField "runtime".data).bind Json.asNum
  let voteAverage ← (j.getField "voteAverage".data).bind Json.asNum
  let voteCount ← (j.getField "voteCount".data).bind Json.asNum
  let popularity ← (j.getField "popularity".data).bind Json.asNum
  let budget ← (j.getField "budget".data).bind Json.asNum
  let revenue ← (j.getField "revenue".data).bind Json.asNum
  pure (runtime, voteAverage, voteCount, popularity, budget, revenue)

/-- Decode every element of a JSON array, failing if any element
fails. -/
def optMapM {α : Type} (dec : Json → Option α) : List Json → Option (List α)
  | [] => some []
  | j :: js =>
    match dec j, optMapM dec js with
    | some x, some xs => some (x :: xs)
    | _, _ => none

def filmLists (j : Json) :
    Option (List Genre × List ProductionCompany × List ProductionCountry ×
      List SpokenLanguage) := do
  let genres ← ((j.getField "genres".data).bind Json.asArr).bind
    (optMapM Genre.fromJson)
  let companies ← ((j.getField "productionCompanies".data).bind Json.asArr).bind
    (optMapM ProductionCompany.fromJson)
  let countries ← ((j.getField "productionCountries".data).bind Json.asArr).bind
    (optMapM ProductionCountry.fromJson)
  let langs ← ((j.getField "spokenLanguages".data).bind Json.asArr).bind
    (optMapM SpokenLanguage.fromJson)
  pure (genres, companies, countries, langs)

def Film.fromJson (j : Json) : Option Film := do
  let idq ← (j.getField "id".data).bind Json.asNum
  let id ← if (0:Int) ≤ idq.num ∧ idq.den = 1 then some idq.num.toNat else none
  let s ← filmStrings j
  let n ← filmNumbers j
  let ls ← filmLists j
  let adult ← (j.getField "adult".data).bind Json.asBool
  let video ← (j.getField "video".data).bind Json.asBool
  pure (Film.mk id s.1 s.2.1 s.2.2.1 s.2.2.2.1
    ((j.getField "posterPath".data).bind Json.asStr)
    ((j.getField "backdropPath".data).bind Json.asStr)
    ls.1 n.1 n.2.1 n.2.2.1 n.2.2.2.1 s.2.2.2.2.1 s.2.2.2.2.2.1
    n.2.2.2.2.1 n.2.2.2.2.2 ls.2.1 ls.2.2.1 ls.2.2.2 adult video
    s.2.2.2.2.2.2
    ((j.getField "imdbId".data).bind Json.asStr)
    ((j.getField "homepage".data).bind Json.asStr))

/-! ### ConfigManager (src/lib/config-manager.ts) -/

/-- A parsed `config.json`: each user preference key is either absent
or bound to an arbitrary JSON value (`JSON.parse` performs no
validation).  The `app` section is carried through unvalidated. -/
structure RawUserConfig where
  tmdbApiKey : Option Json
  defaultOutputDir : Option Json
  imageQuality : Option Json
  language : Option Json
  includeAdult : Option Json
  downloadImages : Option Json
  maxImageSize : Option Json

structure RawConfigFile where
  user : Option RawUserConfig
  app : Option Json
  lastUpdated : Option (List Char)

/-- The merged user section; values stay JSON since the code never
converts them. -/
structure UserConfigM where
  tmdbApiKey : Json
  defaultOutputDir : Json
  imageQuality : Json
  language : Json
  includeAdult : Json
  downloadImages : Json
  maxImageSize : Json

/-- `DEFAULT_CONFIG` from src/types (config defaults). -/
def defaultUserConfig : UserConfigM :=
  ⟨.str [], .str "./films".data, .str "medium".data, .str "en-US".data,
    .boolean false, .boolean true, .str "w500".data⟩

structure ConfigFileM where
  user : UserConfigM
  app : Option Json
  lastUpdated : Option (List Char)

def qualityNames : List (List Char) := ["low".data, "medium".data, "high".data]

def sizeNames : List (List Char) :=
  ["w92".data, "w154".data, "w185".data, "w342".data, "w500".data,
   "w780".data, "original".data]

/-- One key of the object spread `{ ...DEFAULT_CONFIG, ...config.user }`:
a key present in `config.user` wins, otherwise the default stays. -/
def mergeField (d : Json) : Option Json → Json
  | none => d
  | some v => v

def mergeUser : Option RawUserConfig → UserConfigM
  | none => defaultUserConfig
  | some ru =>
    ⟨mergeField defaultUserConfig.tmdbApiKey ru.tmdbApiKey,
     mergeField defaultUserConfig.defaultOutputDir ru.defaultOutputDir,
     mergeField defaultUserConfig.imageQuality ru.imageQuality,
     mergeField defaultUserConfig.language ru.language,
     mergeField defaultUserConfig.includeAdult ru.includeAdult,
     mergeField defaultUserConfig.downloadImages ru.downloadImages,
     mergeField defaultUserConfig.maxImageSize ru.maxImageSize⟩

/-- `ConfigManager.validateAndMergeConfig`.  The fresh
`new Date().toISOString()` fallback for `lastUpdated` is modelled as
`none` (wall-clock time is outside the model). -/
def validateAndMergeConfig (raw : RawConfigFile) : ConfigFileM :=
  let u0 := mergeUser raw.user
  let u1 := if u0.tmdbApiKey.truthy then u0 else { u0 with tmdbApiKey := .str [] }
  let u2 :=
    if u1.imageQuality.isStrIn qualityNames then u1
    else { u1 with imageQuality := .str "medium".data }
  let u3 :=
    if u2.maxImageSize.isStrIn sizeNames then u2
    else { u2 with maxImageSize := .str "w500".data }
  ⟨u3, raw.app, raw.lastUpdated⟩

/-- `ConfigManager.loadConfig` from the parsed file state: a missing
`config.json` yields the default config, otherwise the parsed contents
are validated and merged.  (A file whose contents do not parse raises
before this point; no preference-field value can cause that.) -/
def loadConfig : Option RawConfigFile → ConfigFileM
  | none => ⟨defaultUserConfig, none, none⟩
  | some raw => validateAndMergeConfig raw

/-! ### Credentials and API-key resolution -/

/-- State of `credentials.json`: absent, unreadable/corrupt (any error
is caught and treated as no credentials), or parsed JSON. -/
inductive CredFile where
  | absent
  | corrupt
  | wellformed (j : Json)

/-- `ConfigManager.loadCredentials`: `credentials.apiKey || null`; any
falsy `apiKey` (or a non-object file) collapses to `null`. -/
def loadCredentials : CredFile → Option Json
  | .absent => none
  | .corrupt => none
  | .wellformed j =>
    match j.getField "apiKey".data with
    | some v => if v.truthy then some v else none
    | none => none

/-- `ConfigManager.getApiKey`: credentials-file key first, else
`process.env.TMDB_API_KEY || null` (an empty environment value is
falsy). -/
def getApiKey (cred : CredFile) (env : Option (List Char)) : Option Json :=
  match loadCredentials cred with
  | some k => some k
  | none =>
    match env with
    | some s => if s.isEmpty then none else some (.str s)
    | none => none

/-! ### FilmService.validateSearchParams -/

structure SearchParams where
  query : List Char
  year : Option Int
deriving DecidableEq

structure APIError where
  message : List Char
  status : Nat
deriving DecidableEq

/-- Model of `String.prototype.trim()` (ASCII whitespace subset). -/
def jsTrim (l : List Char) : List Char :=
  ((l.dropWhile isWsChar).reverse.dropWhile isWsChar).reverse

/-- `FilmService.validateSearchParams`; the result is the thrown
`APIError`, if any.  `currentYear` stands for
`new Date().getFullYear()`. -/
def validateSearchParams (p : SearchParams) (currentYear : Int) : Option APIError :=
  if p.query.isEmpty || (jsTrim p.query).isEmpty then
    some ⟨"Search query is required".data, 400⟩
  else if (jsTrim p.query).length < 2 then
    some ⟨"Search query must be at least 2 characters".data, 400⟩
  else
    match p.year with
    | some y =>
      if y ≠ 0 ∧ (y < 1888 ∨ y > currentYear + 1) then
        some ⟨"Invalid year specified".data, 400⟩
      else none
    | none => none

/-! ### Filesystem model

Paths are strings; the filesystem is keyed by canonical absolute paths
(lists of segments).  Every fs-level operation canonicalises its
argument against the process working directory, which is how the OS
resolves the relative and absolute path strings the code mixes
(`path.resolve` in `saveFilm` versus `path.join` in `getSavedFilm`).
`path.join`'s eager `.`/`..` normalisation is left to canonicalisation,
which yields the same canonical key. -/

/-- Split a path into its segments, dropping empty and `.` segments. -/
def splitPath (p : List Char) : List (List Char) :=
  (jsSplit '/' p).filter (fun s => !s.isEmpty && s != ['.'])

/-- Resolve `..` segments (at the root, `..` stays at the root). -/
def collapseSegs (segs : List (List Char)) : List (List Char) :=
  segs.foldl (fun acc s => if s = ['.', '.'] then acc.dropLast else acc ++ [s]) []

def isAbs (p : List Char) : Bool := p.head? == some '/'

/-- Render canonical segments as an absolute path string. -/
def renderAbs (segs : List (List Char)) : List Char := '/' :: jsJoin '/' segs

/-- `path.join` of two segments-to-be (empty parts are dropped, as in
node; `.`/`..` cleanup is deferred to canonicalisation). -/
def pathJoin (a b : List Char) : List Char :=
  if a.isEmpty then b else if b.isEmpty then a else a ++ '/' :: b

/-- On-disk file contents.  `data.json` stores the serialised JSON
value. -/
inductive FileData where
  | jsonF (j : Json)
  | textF (t : List Char)
  | binF (size : Nat)

/-- Abstraction of a JSON file's byte length (no claim constrains the
exact figure, only that each file contributes one). -/
def Json.weight : Json → Nat
  | .str s => s.length + 2
  | .arr xs => xs.length + 2
  | .obj fields => fields.length + 2
  | _ => 4

def FileData.size : FileData → Nat
  | .jsonF j => j.weight
  | .textF t => t.length
  | .binF n => n

structure FileSys where
  cwd : List (List Char)
  files : List (List (List Char) × FileData)
  dirs : List (List (List Char))

/-- Canonical absolute key of a path string. -/
def canon (fs : FileSys) (p : List Char) : List (List Char) :=
  collapseSegs ((if isAbs p then [] else fs.cwd) ++ splitPath p)

/-- `path.resolve(a, b)` (right-most absolute segment wins; the result
is an absolute, normalised path string). -/
def pathResolve (fs : FileSys) (a b : List Char) : List Char :=
  if isAbs b then renderAbs (collapseSegs (splitPath b))
  else if isAbs a then renderAbs (collapseSegs (splitPath a ++ splitPath b))
  else renderAbs (collapseSegs (fs.cwd ++ splitPath a ++ splitPath b))

def FileSys.lookupFile (fs : FileSys) (key : List (List Char)) : Option FileData :=
  (fs.files.find? (fun e => e.1 == key)).map (fun e => e.2)

def FileSys.isFile (fs : FileSys) (key : List (List Char)) : Bool :=
  (fs.lookupFile key).isSome

def FileSys.isDirKey (fs : FileSys) (key : List (List Char)) : Bool :=
  fs.dirs.contains key

/-- `fs.existsSync`: true for files and directories alike. -/
def existsSync (fs : FileSys) (p : List Char) : Bool :=
  fs.isFile (canon fs p) || fs.isDirKey (canon fs p)

/-- `FileHelpers.fileExists` delegates to `fs.existsSync` (so it is
also true for a directory of that name). -/
def fileExists (fs : FileSys) (p : List Char) : Bool := existsSync fs p

/-- `FileHelpers.directoryExists`: `existsSync` plus
`statSync(...).isDirectory()`. -/
def directoryExists (fs : FileSys) (p : List Char) : Bool :=
  fs.isDirKey (canon fs p)

/-- `fs.writeFileSync` (the earlier `ensureDirectoryExists` calls make
the parent exist, so writes succeed; the new binding shadows any old
one). -/
def writeFile (fs : FileSys) (p : List Char) (d : FileData) : FileSys :=
  { fs with files := (canon fs p, d) :: fs.files }

/-- `fs.mkdirSync(..., { recursive: true })`. -/
def mkdirp (fs : FileSys) (p : List Char) : FileSys :=
  { fs with dirs := (canon fs p).inits ++ fs.dirs }

def ensureDirectoryExists (fs : FileSys) (p : List Char) : FileSys :=
  if existsSync fs p then fs else mkdirp fs p

/-- `fs.readdirSync`: the immediate child names under a directory key
(order is whatever the store yields — callers must not rely on it). -/
def readdirNames (fs : FileSys) (key : List (List Char)) : List (List Char) :=
  ((fs.files.map (fun e => e.1) ++ fs.dirs).filterMap
    (fun k => if k.take key.length == key then (k.drop key.length).head? else none)).dedup

/-- `FileHelpers.getDirectoryContents`: empty when the directory does
not exist. -/
def getDirectoryContents (fs : FileSys) (p : List Char) : List (List Char) :=
  if directoryExists fs p then readdirNames fs (canon fs p) else []

/-- `FileHelpers.getFileSize` (a directory's stat size is abstracted
as 0; no claim depends on it). -/
def getFileSize (fs : FileSys) (p : List Char) : Nat :=
  ((fs.lookupFile (canon fs p)).map FileData.size).getD 0

/-- A well-formed store only holds keys made of real directory-entry
names: nonempty, none of `.`/`..`, no `/`. -/
def validSeg (s : List Char) : Bool :=
  !s.isEmpty && s != ['.'] && s != ['.', '.'] && !s.contains '/'

def FileSys.ValidKeys (fs : FileSys) : Prop :=
  ∀ k ∈ fs.files.map (fun e => e.1) ++ fs.dirs, ∀ s ∈ k, validSeg s = true

/-! ### StorageService (src/lib/storage-service.ts) -/

/-- The slice of the loaded config that the storage service reads. -/
structure StorageCfg where
  defaultOutputDir : List Char
  downloadImages : Bool

/-- `outputDir || config.user.defaultOutputDir` (an empty string is
falsy). -/
def effBaseDir (dir : Option (List Char)) (defDir : List Char) : List Char :=
  match dir with
  | some d => if d.isEmpty then defDir else d
  | none => defDir

/-- Outcome of the two image downloads: `some n` is a successful
download of `n` bytes, `none` a failed one (whose rejection
`Promise.allSettled` swallows and whose partial file the error handler
unlinks). -/
structure DlOracle where
  poster : Option Nat
  backdrop : Option Nat

def strTruthy : Option (List Char) → Bool
  | some s => !s.isEmpty
  | none => false

/-- `StorageService.downloadFilmImages`. -/
def downloadFilmImages (fs : FileSys) (film : Film) (filmDir : List Char)
    (oracle : DlOracle) : FileSys :=
  let fs1 :=
    if strTruthy film.posterPath then
      match oracle.poster with
      | some n => writeFile fs (pathJoin filmDir "poster.jpg".data) (.binF n)
      | none => fs
    else fs
  if strTruthy film.backdropPath then
    match oracle.backdrop with
    | some n => writeFile fs1 (pathJoin filmDir "backdrop.jpg".data) (.binF n)
    | none => fs1
  else fs1

/-- `StorageService.generateMetadataText` — derived human-readable
text, regenerated on every save and never read back.  Its content
embeds `new Date().toISOString()` and is outside the model; only the
fact that `metadata.txt` is written matters to any claim, so the text
is abstracted by the film title. -/
def generateMetadataText (film : Film) : List Char := film.title

/-- `StorageService.saveFilm` (directory creation and the two writes
succeed in the model; the download outcomes are the oracle's). -/
def saveFilm (fs : FileSys) (cfg : StorageCfg) (film : Film)
    (dir : Option (List Char)) (oracle : DlOracle) : FileSys × List Char :=
  let base := effBaseDir dir cfg.defaultOutputDir
  let filmDirName := createFilmDirectoryName film.id film.title
  let filmDir := pathResolve fs base filmDirName
  let fs1 := ensureDirectoryExists fs filmDir
  let fs2 := writeFile fs1 (pathJoin filmDir "data.json".data) (.jsonF film.toJson)
  let fs3 := writeFile fs2 (pathJoin filmDir "metadata.txt".data)
    (.textF (generateMetadataText film))
  let fs4 :=
    if cfg.downloadImages then downloadFilmImages fs3 film filmDir oracle else fs3
  (fs4, filmDir)

/-- `StorageService.listSavedFilms`. -/
def listSavedFilms (fs : FileSys) (cfg : StorageCfg)
    (dir : Option (List Char)) : List (List Char) :=
  let base := effBaseDir dir cfg.defaultOutputDir
  if directoryExists fs base then
    (getDirectoryContents fs base).filter (fun item =>
      directoryExists fs (pathJoin base item) &&
      fileExists fs (pathJoin (pathJoin base item) "data.json".data))
  else []

/-- `StorageService.getSavedFilm`: `null` when `data.json` does not
exist, otherwise the parsed JSON value (the code casts it to `Film`
unchecked; a `data.json` that is not a JSON file would throw, which is
outside the happy path modelled here). -/
def getSavedFilm (fs : FileSys) (cfg : StorageCfg) (filmDirName : List Char)
    (dir : Option (List Char)) : Option Json :=
  let base := effBaseDir dir cfg.defaultOutputDir
  let dataPath := pathJoin (pathJoin base filmDirName) "data.json".data
  if fileExists fs dataPath then
    match fs.lookupFile (canon fs dataPath) with
    | some (.jsonF j) => some j
    | _ => none
  else none

structure StorageStats where
  totalFilms : Nat
  totalSize : Nat
  averageSize : Rat
deriving DecidableEq

/-- `StorageService.getStorageStats`. -/
def getStorageStats (fs : FileSys) (cfg : StorageCfg)
    (dir : Option (List Char)) : StorageStats :=
  let base := effBaseDir dir cfg.defaultOutputDir
  if directoryExists fs base then
    let filmDirs := listSavedFilms fs cfg dir
    let totalSize := (filmDirs.map (fun d =>
      ((getDirectoryContents fs (pathJoin base d)).map (fun f =>
        if fileExists fs (pathJoin (pathJoin base d) f) then
          getFileSize fs (pathJoin (pathJoin base d) f)
        else 0)).sum)).sum
    ⟨filmDirs.length, totalSize,
      if 0 < filmDirs.length then (totalSize : Rat) / (filmDirs.length : Rat)
      else 0⟩
  else ⟨0, 0, 0⟩

/-- A minimal film used to instantiate the storage theorems. -/
def witnessFilm : Film :=
  ⟨1, "T".data, "T".data, "o".data, "2020-01-01".data, none, none, [], 0, 0, 0,
    0, "Released".data, "t".data, 0, 0, [], [], [], false, false, "en".data,
    none, none⟩

/-- A store in which `films/1-x/data.json` is a directory, not a file. -/
def cexFs : FileSys :=
  ⟨[], [],
    [["films".data], ["films".data, "1-x".data],
     ["films".data, "1-x".data, "data.json".data]]⟩

/-! ### Lemmas about run replacement -/

theorem length_replRunsGo (p : Char → Bool) (r : Char) :
    ∀ (l : List Char) (b), (replRunsGo p r b l).length ≤ l.length := by
  intro l
  induction l with
  | nil => intro b; simp [replRunsGo]
  | cons c cs ih =>
    intro b
    simp only [replRunsGo]
    by_cases hc : p c
    · simp only [hc, if_true, List.length_append, List.length_cons]
      have := ih true
      cases b <;> simp <;> omega
    · simp only [hc, if_false, List.length_cons]
      exact Nat.succ_le_succ (ih false)

theorem mem_replRunsGo {p : Char → Bool} {r c : Char} :
    ∀ (l : List Char) (b), c ∈ replRunsGo p r b l → c = r ∨ (c ∈ l ∧ p c = false) := by
  intro l
  induction l with
  | nil => intro b h; simp [replRunsGo] at h
  | cons a cs ih =>
    intro b h
    simp only [replRunsGo] at h
    by_cases ha : p a
    · simp only [ha, if_true, List.mem_append] at h
      rcases h with h | h
      · left
        cases b <;> simp_all
      · rcases ih true h with h1 | ⟨h2, h3⟩
        · exact Or.inl h1
        · exact Or.inr ⟨List.mem_cons_of_mem _ h2, h3⟩
    · simp only [ha, Bool.false_eq_true, if_false, List.mem_cons] at h
      rcases h with h | h
      · subst h
        exact Or.inr ⟨List.mem_cons_self _ _, by simpa using ha⟩
      · rcases ih false h with h1 | ⟨h2, h3⟩
        · exact Or.inl h1
        · exact Or.inr ⟨List.mem_cons_of_mem _ h2, h3⟩

theorem replRunsGo_eq_self {p : Char → Bool} {r : Char} :
    ∀ (l : List Char), (∀ c ∈ l, p c = false) → ∀ b, replRunsGo p r b l = l := by
  intro l
  induction l with
  | nil => intro _ b; simp [replRunsGo]
  | cons a cs ih =>
    intro h b
    have ha : p a = false := h a (List.mem_cons_self _ _)
    simp only [replRunsGo, ha, if_false, Bool.false_eq_true]
    exact congrArg (a :: ·) (ih (fun c hc => h c (List.mem_cons_of_mem _ hc)) false)

/-- A hyphen-collapsed list has no two adjacent hyphens, and when the
scanner starts inside a run, the first emitted character is not `-`. -/
theorem replRunsGo_hy_spec :
    ∀ l : List Char,
      (∀ b, List.Chain' noHH (replRunsGo (· == '-') '-' b l)) ∧
        (∀ c, (replRunsGo (· == '-') '-' true l).head? = some c → c ≠ '-') := by
  intro l
  induction l with
  | nil => exact ⟨fun b => by simp [replRunsGo], fun c h => by simp [replRunsGo] at h⟩
  | cons a cs ih =>
    obtain ⟨ihc, ihh⟩ := ih
    by_cases ha : a = '-'
    · subst ha
      constructor
      · intro b
        cases b
        · have hrw : replRunsGo (· == '-') '-' false ('-' :: cs) =
              '-' :: replRunsGo (· == '-') '-' true cs := by
            simp [replRunsGo]
          rw [hrw, List.chain'_cons']
          refine ⟨fun y hy => ?_, ihc true⟩
          intro ⟨_, hy2⟩
          exact ihh y (by simpa using hy) hy2
        · simpa [replRunsGo] using ihc true
      · intro c h
        simp only [replRunsGo, beq_self_eq_true, if_true, List.nil_append] at h
        exact ihh c h
    · have ha2 : (a == '-') = false := by simpa using ha
      constructor
      · intro b
        simp only [replRunsGo, ha2, Bool.false_eq_true, if_false]
        rw [List.chain'_cons']
        exact ⟨fun y _ => fun ⟨h1, _⟩ => ha h1, ihc false⟩
      · intro c h
        simp only [replRunsGo, ha2, Bool.false_eq_true, if_false, List.head?_cons,
          Option.some.injEq] at h
        subst h
        exact ha

theorem replRunsGo_hy_eq_self :
    ∀ l : List Char, List.Chain' noHH l →
      ∀ b, (b = true → ∀ c, l.head? = some c → c ≠ '-') →
        replRunsGo (· == '-') '-' b l = l := by
  intro l
  induction l with
  | nil => intro _ b _; simp [replRunsGo]
  | cons a cs ih =>
    intro hch b hb
    rw [List.chain'_cons'] at hch
    obtain ⟨hhead, htail⟩ := hch
    by_cases ha : a = '-'
    · subst ha
      cases b
      · simp only [replRunsGo, beq_self_eq_true, if_true, List.nil_append,
          List.singleton_append]
        refine congrArg ('-' :: ·) (ih htail true ?_)
        intro _ c hc hc2
        exact (hhead c hc) ⟨rfl, hc2⟩
      · exact absurd (hb rfl '-' rfl) (fun h => h rfl)
    · have ha2 : (a == '-') = false := by simpa using ha
      simp only [replRunsGo, ha2, Bool.false_eq_true, if_false]
      exact congrArg (a :: ·) (ih htail false (by intro h; cases h))

/-! ### Lemmas about hyphen trimming -/

theorem trimHyphens_eq_rdrop (l : List Char) :
    trimHyphens l = List.rdropWhile (· == '-') (List.dropWhile (· == '-') l) := rfl

theorem trimHyphens_between (l : List Char) : trimHyphens l <:+: l := by
  rw [trimHyphens_eq_rdrop]
  obtain ⟨s, hs⟩ := List.dropWhile_suffix (l := l) (· == '-')
  obtain ⟨r, hr⟩ :=
    List.rdropWhile_prefix (· == '-') (List.dropWhile (· == '-') l)
  exact ⟨s, r, by rw [List.append_assoc, hr, hs]⟩

theorem mem_trimHyphens {c : Char} {l : List Char} (h : c ∈ trimHyphens l) : c ∈ l :=
  (trimHyphens_between l).subset h

theorem length_trimHyphens_le (l : List Char) : (trimHyphens l).length ≤ l.length :=
  (trimHyphens_between l).sublist.length_le

theorem trimHyphens_chain' {l : List Char} (h : List.Chain' noHH l) :
    List.Chain' noHH (trimHyphens l) :=
  h.infix (trimHyphens_between l)

theorem head?_eq_of_isPre {l₁ l₂ : List Char} (h : l₁ <+: l₂) (hne : l₁ ≠ []) :
    l₂.head? = l₁.head? := by
  obtain ⟨r, hr⟩ := h
  cases l₁ with
  | nil => exact absurd rfl hne
  | cons a as => rw [← hr]; simp

theorem head?_dropWhile_ne {p : Char → Bool} {c : Char} :
    ∀ {l : List Char}, (List.dropWhile p l).head? = some c → p c = false := by
  intro l
  induction l with
  | nil => intro h; simp at h
  | cons a as ih =>
    intro h
    rw [List.dropWhile_cons] at h
    by_cases ha : p a
    · exact ih (by simpa [ha] using h)
    · simp only [ha, Bool.false_eq_true, if_false, List.head?_cons,
        Option.some.injEq] at h
      subst h
      simpa using ha

theorem trimHyphens_head {l : List Char} {c : Char}
    (h : (trimHyphens l).head? = some c) : c ≠ '-' := by
  rw [trimHyphens_eq_rdrop] at h
  have hne : List.rdropWhile (· == '-') (List.dropWhile (· == '-') l) ≠ [] := by
    intro h0; rw [h0] at h; simp at h
  have hpre := List.rdropWhile_prefix (· == '-') (List.dropWhile (· == '-') l)
  have hhead := head?_eq_of_isPre hpre hne
  rw [h] at hhead
  have := head?_dropWhile_ne hhead
  simpa using this

theorem trimHyphens_getLast {l : List Char} {c : Char}
    (h : (trimHyphens l).getLast? = some c) : c ≠ '-' := by
  rw [trimHyphens_eq_rdrop] at h
  set m := List.dropWhile (· == '-') l with hm
  have hne : List.rdropWhile (· == '-') m ≠ [] := by
    intro h0; rw [h0] at h; simp at h
  have := List.rdropWhile_last_not (· == '-') m hne
  rw [List.getLast?_eq_getLast _ hne] at h
  simp only [Option.some.injEq] at h
  subst h
  simpa using this

theorem trimHyphens_eq_self {l : List Char}
    (hh : ∀ c, l.head? = some c → c ≠ '-')
    (hl : ∀ c, l.getLast? = some c → c ≠ '-') : trimHyphens l = l := by
  rw [trimHyphens_eq_rdrop]
  have h1 : List.dropWhile (· == '-') l = l := by
    rw [List.dropWhile_eq_self_iff]
    intro hlen
    have : l.head? = some (l.get ⟨0, hlen⟩) := by
      cases l with
      | nil => simp at hlen
      | cons a as => simp
    simpa using hh _ this
  rw [h1, List.rdropWhile_eq_self_iff]
  intro hne
  have : l.getLast? = some (l.getLast hne) := List.getLast?_eq_getLast _ hne
  simpa using hl _ this

/-! ### Properties of `sanitizeFilename` -/

theorem sanitizeFilename_eq_core (l : List Char) :
    sanitizeFilename l = (sanitizeCore l).take 255 := rfl

theorem mem_sanitizeCore {c : Char} {l : List Char} (h : c ∈ sanitizeCore l) :
    isInvalidChar c = false ∧ isWsChar c = false := by
  have h2 := mem_trimHyphens h
  rcases mem_replRunsGo _ _ h2 with hc | ⟨h3, _⟩
  · subst hc; exact ⟨by decide, by decide⟩
  · rcases mem_replRunsGo _ _ h3 with hc | ⟨h4, hws⟩
    · subst hc; exact ⟨by decide, by decide⟩
    · rcases List.mem_map.mp h4 with ⟨a, _, hfa⟩
      by_cases hai : isInvalidChar a
      · have : c = '-' := by rw [← hfa]; simp [hai]
        subst this; exact ⟨by decide, by decide⟩
      · have : c = a := by rw [← hfa]; simp [hai]
        subst this
        exact ⟨by simpa using hai, hws⟩

theorem length_sanitizeCore_le (l : List Char) : (sanitizeCore l).length ≤ l.length := by
  refine le_trans (length_trimHyphens_le _) ?_
  refine le_trans (length_replRunsGo _ _ _ _) ?_
  refine le_trans (length_replRunsGo _ _ _ _) ?_
  simp

theorem sanitizeCore_chain' (l : List Char) : List.Chain' noHH (sanitizeCore l) :=
  trimHyphens_chain' ((replRunsGo_hy_spec _).1 false)

theorem mem_sanitizeFilename {c : Char} {l : List Char} (h : c ∈ sanitizeFilename l) :
    isInvalidChar c = false ∧ isWsChar c = false :=
  mem_sanitizeCore (List.mem_of_mem_take h)

theorem length_sanitizeFilename_le (l : List Char) :
    (sanitizeFilename l).length ≤ l.length := by
  have := length_sanitizeCore_le l
  rw [sanitizeFilename_eq_core, List.length_take]
  omega

/-- `sanitizeFilename` is idempotent on inputs of length at most 255
(truncation never fires, so the trimmed value is returned unchanged). -/
theorem sanitizeFilename_idem {l : List Char} (h : l.length ≤ 255) :
    sanitizeFilename (sanitizeFilename l) = sanitizeFilename l := by
  have hcore : (sanitizeCore l).length ≤ 255 :=
    le_trans (length_sanitizeCore_le l) h
  have hs1 : sanitizeFilename l = sanitizeCore l := by
    rw [sanitizeFilename_eq_core]
    exact List.take_of_length_le hcore
  rw [hs1]
  have hprops : ∀ c ∈ sanitizeCore l,
      isInvalidChar c = false ∧ isWsChar c = false := fun c hc => mem_sanitizeCore hc
  have hmap : (sanitizeCore l).map (fun c => if isInvalidChar c then '-' else c) =
      sanitizeCore l := by
    have := List.map_congr_left (l := sanitizeCore l)
      (f := fun c => if isInvalidChar c then '-' else c) (g := id)
      (fun c hc => by simp [(hprops c hc).1])
    simpa using this
  have hws : replRuns isWsChar '-' (sanitizeCore l) = sanitizeCore l :=
    replRunsGo_eq_self _ (fun c hc => (hprops c hc).2) false
  have hhy : replRuns (· == '-') '-' (sanitizeCore l) = sanitizeCore l := by
    refine replRunsGo_hy_eq_self _ (sanitizeCore_chain' l) false ?_
    intro hb; cases hb
  have htrim : trimHyphens (sanitizeCore l) = sanitizeCore l :=
    trimHyphens_eq_self (fun c hc => trimHyphens_head hc)
      (fun c hc => trimHyphens_getLast hc)
  rw [sanitizeFilename_eq_core, sanitizeCore, hmap, hws, hhy, htrim]
  exact List.take_of_length_le hcore

example :
    sanitizeFilename "  The Matrix: Reloaded?  ".data = "The-Matrix-Reloaded".data := by
  decide

example : natToChars 603 = ['6', '0', '3'] := by decide

/-! ### Lemmas about decimal rendering -/

theorem natToCharsGo_irrel :
    ∀ (f g n : Nat), n < f → n < g → natToCharsGo f n = natToCharsGo g n := by
  intro f
  induction f with
  | zero => intro g n h; omega
  | succ f ih =>
    intro g n hf hg
    cases g with
    | zero => omega
    | succ g =>
      simp only [natToCharsGo]
      by_cases h10 : n < 10
      · simp [h10]
      · have hd : n / 10 < n := Nat.div_lt_self (by omega) (by omega)
        simp only [h10, if_false]
        rw [ih g (n / 10) (by omega) (by omega)]

theorem natToChars_eq (n : Nat) :
    natToChars n =
      if n < 10 then [digitChar n]
      else natToChars (n / 10) ++ [digitChar (n % 10)] := by
  rw [natToChars]
  by_cases h10 : n < 10
  · simp [natToCharsGo, h10]
  · have hd : n / 10 < n := Nat.div_lt_self (by omega) (by omega)
    simp only [natToCharsGo, h10, if_false]
    rw [natToCharsGo_irrel n (n / 10 + 1) (n / 10) (by omega) (by omega)]
    rfl

theorem mem_natToChars {c : Char} :
    ∀ n : Nat, c ∈ natToChars n → ∃ d, d < 10 ∧ c = digitChar d := by
  intro n
  induction n using Nat.strong_induction_on with
  | _ n ih =>
    intro h
    rw [natToChars_eq] at h
    by_cases h10 : n < 10
    · simp only [h10, if_true, List.mem_singleton] at h
      exact ⟨n, h10, h⟩
    · have hd : n / 10 < n := Nat.div_lt_self (by omega) (by omega)
      simp only [h10, if_false, List.mem_append, List.mem_singleton] at h
      rcases h with h | h
      · exact ih (n / 10) hd h
      · exact ⟨n % 10, by omega, h⟩

theorem charVal_digitChar {d : Nat} (h : d < 10) : charVal (digitChar d) = d := by
  interval_cases d <;> decide

theorem digitsVal_natToChars : ∀ n : Nat, digitsVal (natToChars n) = n := by
  intro n
  induction n using Nat.strong_induction_on with
  | _ n ih =>
    rw [natToChars_eq]
    by_cases h10 : n < 10
    · simp only [h10, if_true, digitsVal, List.foldl_cons, List.foldl_nil]
      rw [charVal_digitChar h10]
      omega
    · have hd : n / 10 < n := Nat.div_lt_self (by omega) (by omega)
      simp only [h10, if_false, digitsVal, List.foldl_append, List.foldl_cons,
        List.foldl_nil]
      have := ih (n / 10) hd
      rw [digitsVal] at this
      rw [this, charVal_digitChar (by omega)]
      omega

theorem natToChars_inj {m n : Nat} (h : natToChars m = natToChars n) : m = n := by
  have hm := digitsVal_natToChars m
  rw [h, digitsVal_natToChars] at hm
  omega

theorem digitChar_props {d : Nat} (h : d < 10) :
    digitChar d ≠ '-' ∧ isInvalidChar (digitChar d) = false ∧
      isWsChar (digitChar d) = false := by
  interval_cases d <;> exact ⟨by decide, by decide, by decide⟩

theorem hyphen_not_mem_natToChars (n : Nat) : '-' ∉ natToChars n := by
  intro h
  obtain ⟨d, hd, hc⟩ := mem_natToChars n h
  exact (digitChar_props hd).1 hc.symm

/-! ### Lemmas about split and join -/

theorem jsSplit_shape (sep : Char) (l : List Char) :
    ∃ h t, jsSplit sep l = h :: t := by
  cases l with
  | nil => exact ⟨[], [], rfl⟩
  | cons c cs =>
    by_cases hc : (c == sep) = true
    · exact ⟨[], jsSplit sep cs, by simp [jsSplit, hc]⟩
    · cases hs : jsSplit sep cs with
      | nil => exact ⟨[c], [], by simp [jsSplit, hc, hs]⟩
      | cons h0 t0 => exact ⟨c :: h0, t0, by simp [jsSplit, hc, hs]⟩

theorem jsSplit_append_sep {sep : Char} :
    ∀ d : List Char, sep ∉ d →
      ∀ t, jsSplit sep (d ++ sep :: t) = d :: jsSplit sep t := by
  intro d
  induction d with
  | nil => intro _ t; simp [jsSplit]
  | cons c d ih =>
    intro hmem t
    have hc : (c == sep) = false := by
      simp only [beq_eq_false_iff_ne, ne_eq]
      intro h
      exact hmem (h ▸ List.mem_cons_self _ _)
    rw [List.cons_append]
    simp only [jsSplit, hc, Bool.false_eq_true, if_false]
    rw [ih (fun h => hmem (List.mem_cons_of_mem _ h)) t]

theorem jsJoin_jsSplit (sep : Char) : ∀ l, jsJoin sep (jsSplit sep l) = l := by
  intro l
  induction l with
  | nil => rfl
  | cons c cs ih =>
    by_cases hc : (c == sep) = true
    · have hceq : c = sep := by simpa using hc
      obtain ⟨h0, t0, hsplit⟩ := jsSplit_shape sep cs
      simp only [jsSplit, hc, if_true, hsplit]
      simp only [jsJoin, List.nil_append]
      rw [← hsplit, ih, hceq]
    · obtain ⟨h0, t0, hsplit⟩ := jsSplit_shape sep cs
      simp only [jsSplit, hc, Bool.false_eq_true, if_false, hsplit]
      cases t0 with
      | nil =>
        simp only [jsJoin]
        rw [hsplit] at ih
        simp only [jsJoin] at ih
        rw [ih]
      | cons u us =>
        simp only [jsJoin, List.cons_append]
        rw [hsplit] at ih
        simp only [jsJoin] at ih
        rw [ih]

example :
    createFilmDirectoryName 603 "The Matrix".data = "603-The-Matrix".data := by
  decide

example :
    extractFilmName (createFilmDirectoryName 603 "The Matrix".data) =
      "The-Matrix".data := by
  decide

theorem jsSplit_append (sep : Char) :
    ∀ a b : List Char, jsSplit sep (a ++ sep :: b) = jsSplit sep a ++ jsSplit sep b := by
  intro a
  induction a with
  | nil => intro b; simp [jsSplit]
  | cons c a ih =>
    intro b
    obtain ⟨h0, t0, hsh⟩ := jsSplit_shape sep a
    by_cases hc : (c == sep) = true
    · rw [List.cons_append]
      simp only [jsSplit, hc, if_true]
      rw [ih]
      rfl
    · rw [List.cons_append]
      simp only [jsSplit, hc, Bool.false_eq_true, if_false]
      rw [ih, hsh]
      rfl

theorem not_sep_of_mem_jsSplit {sep : Char} :
    ∀ {l part : List Char}, part ∈ jsSplit sep l → sep ∉ part := by
  intro l
  induction l with
  | nil =>
    intro part h
    simp only [jsSplit, List.mem_singleton] at h
    subst h
    simp
  | cons c cs ih =>
    intro part h
    by_cases hc : (c == sep) = true
    · simp only [jsSplit, hc, if_true, List.mem_cons] at h
      rcases h with h | h
      · subst h; simp
      · exact ih h
    · obtain ⟨h0, t0, hsh⟩ := jsSplit_shape sep cs
      simp only [jsSplit, hc, Bool.false_eq_true, if_false, hsh,
        List.mem_cons] at h
      rcases h with h | h
      · subst h
        intro hmem
        rcases List.mem_cons.mp hmem with h | h
        · subst h; simp at hc
        · exact ih (hsh ▸ List.mem_cons_self h0 t0) h
      · exact ih (hsh ▸ List.mem_cons_of_mem h0 h)

theorem jsSplit_no_sep {sep : Char} :
    ∀ {l : List Char}, sep ∉ l → jsSplit sep l = [l] := by
  intro l
  induction l with
  | nil => intro _; rfl
  | cons c cs ih =>
    intro h
    have hc : (c == sep) = false := by
      simp only [beq_eq_false_iff_ne, ne_eq]
      intro hh
      exact h (hh ▸ List.mem_cons_self _ _)
    have hcs : sep ∉ cs := fun hh => h (List.mem_cons_of_mem _ hh)
    simp only [jsSplit, hc, Bool.false_eq_true, if_false, ih hcs]

theorem jsSplit_jsJoin (sep : Char) :
    ∀ parts : List (List Char), parts ≠ [] → (∀ p ∈ parts, sep ∉ p) →
      jsSplit sep (jsJoin sep parts) = parts := by
  intro parts
  induction parts with
  | nil => intro h; exact absurd rfl h
  | cons x rest ih =>
    intro _ hmem
    cases rest with
    | nil =>
      show jsSplit sep x = [x]
      exact jsSplit_no_sep (hmem x (List.mem_cons_self _ _))
    | cons y t =>
      show jsSplit sep (x ++ sep :: jsJoin sep (y :: t)) = _
      rw [jsSplit_append, jsSplit_no_sep (hmem x (List.mem_cons_self _ _)),
        ih (by simp) (fun p hp => hmem p (List.mem_cons_of_mem _ hp))]
      rfl

/-! ### Path canonicalisation lemmas -/

theorem splitPath_nil : splitPath [] = [] := rfl

theorem splitPath_append_sep (a b : List Char) :
    splitPath (a ++ '/' :: b) = splitPath a ++ splitPath b := by
  simp only [splitPath, jsSplit_append, List.filter_append]

theorem validSeg_spec {s : List Char} (h : validSeg s = true) :
    s ≠ [] ∧ s ≠ ['.'] ∧ s ≠ ['.', '.'] ∧ '/' ∉ s := by
  simp only [validSeg, Bool.and_eq_true] at h
  obtain ⟨⟨⟨he, hd⟩, hdd⟩, hc⟩ := h
  refine ⟨?_, ?_, ?_, ?_⟩
  · intro hnil
    rw [hnil] at he
    simp at he
  · intro heq
    rw [heq] at hd
    simp at hd
  · intro heq
    rw [heq] at hdd
    simp at hdd
  · intro hmem
    have hco : s.contains '/' = true := List.elem_iff.mpr hmem
    rw [hco] at hc
    simp at hc

theorem splitPath_single {s : List Char} (h : validSeg s = true) :
    splitPath s = [s] := by
  obtain ⟨h1, h2, _, h4⟩ := validSeg_spec h
  simp only [splitPath, jsSplit_no_sep h4]
  simp [h1, h2]

theorem validSeg_of {s : List Char} (h1 : s ≠ []) (h2 : s ≠ ['.'])
    (h3 : s ≠ ['.', '.']) (h4 : '/' ∉ s) : validSeg s = true := by
  simp only [validSeg, Bool.and_eq_true]
  refine ⟨⟨⟨?_, ?_⟩, ?_⟩, ?_⟩
  · cases s with
    | nil => exact absurd rfl h1
    | cons _ _ => rfl
  · simp only [bne_iff_ne, ne_eq]
    exact h2
  · simp only [bne_iff_ne, ne_eq]
    exact h3
  · cases hc : s.contains '/'
    · rfl
    · exact absurd (List.elem_iff.mp hc) h4

theorem mem_splitPath {p s : List Char} (h : s ∈ splitPath p) :
    s ≠ [] ∧ s ≠ ['.'] ∧ '/' ∉ s := by
  simp only [splitPath, List.mem_filter, Bool.and_eq_true] at h
  obtain ⟨hj, h1, h2⟩ := h
  have hsep := not_sep_of_mem_jsSplit hj
  refine ⟨?_, ?_, hsep⟩
  · intro hh
    rw [hh] at h1
    simp at h1
  · intro hh
    rw [hh] at h2
    simp at h2

theorem collapseSegs_append (X Y : List (List Char)) :
    collapseSegs (X ++ Y) =
      Y.foldl (fun acc s => if s = ['.', '.'] then acc.dropLast else acc ++ [s])
        (collapseSegs X) := by
  simp [collapseSegs, List.foldl_append]

theorem collapseSegs_append_singleton (X : List (List Char)) {b : List Char}
    (hb : b ≠ ['.', '.']) : collapseSegs (X ++ [b]) = collapseSegs X ++ [b] := by
  rw [collapseSegs_append]
  simp [hb]

theorem mem_collapse_aux :
    ∀ (X acc : List (List Char)) (s : List Char),
      s ∈ X.foldl
        (fun acc s => if s = ['.', '.'] then acc.dropLast else acc ++ [s]) acc →
      s ∈ acc ∨ (s ∈ X ∧ s ≠ ['.', '.']) := by
  intro X
  induction X with
  | nil => intro acc s h; exact Or.inl h
  | cons x X ih =>
    intro acc s h
    simp only [List.foldl_cons] at h
    by_cases hx : x = ['.', '.']
    · rw [if_pos hx] at h
      rcases ih _ s h with h1 | ⟨h2, h3⟩
      · exact Or.inl ((List.dropLast_sublist _).subset h1)
      · exact Or.inr ⟨List.mem_cons_of_mem _ h2, h3⟩
    · rw [if_neg hx] at h
      rcases ih _ s h with h1 | ⟨h2, h3⟩
      · rcases List.mem_append.mp h1 with h4 | h4
        · exact Or.inl h4
        · have := List.mem_singleton.mp h4
          subst this
          exact Or.inr ⟨List.mem_cons_self _ _, hx⟩
      · exact Or.inr ⟨List.mem_cons_of_mem _ h2, h3⟩

theorem mem_collapseSegs {X : List (List Char)} {s : List Char}
    (h : s ∈ collapseSegs X) : s ∈ X ∧ s ≠ ['.', '.'] := by
  rcases mem_collapse_aux X [] s h with h1 | h2
  · simp at h1
  · exact h2

theorem collapse_aux_eq :
    ∀ (X acc : List (List Char)), (∀ s ∈ X, s ≠ ['.', '.']) →
      X.foldl (fun acc s => if s = ['.', '.'] then acc.dropLast else acc ++ [s])
        acc = acc ++ X := by
  intro X
  induction X with
  | nil => intro acc _; simp
  | cons x X ih =>
    intro acc h
    simp only [List.foldl_cons,
      if_neg (h x (List.mem_cons_self _ _))]
    rw [ih _ (fun s hs => h s (List.mem_cons_of_mem _ hs))]
    simp

theorem collapseSegs_eq_self {X : List (List Char)}
    (h : ∀ s ∈ X, s ≠ ['.', '.']) : collapseSegs X = X := by
  rw [collapseSegs, collapse_aux_eq X [] h]
  simp

theorem collapseSegs_idem (X : List (List Char)) :
    collapseSegs (collapseSegs X) = collapseSegs X :=
  collapseSegs_eq_self (fun _ hs => (mem_collapseSegs hs).2)

theorem collapseSegs_collapse_append (X Y : List (List Char)) :
    collapseSegs (collapseSegs X ++ Y) = collapseSegs (X ++ Y) := by
  rw [collapseSegs_append, collapseSegs_append, collapseSegs_idem]

theorem isAbs_append_cons {a : List Char} (ha : a ≠ []) (c : Char)
    (b : List Char) : isAbs (a ++ c :: b) = isAbs a := by
  cases a with
  | nil => exact absurd rfl ha
  | cons x xs => simp [isAbs]

theorem isAbs_of_validSeg {b : List Char} (hb : validSeg b = true) :
    isAbs b = false := by
  obtain ⟨hne, _, _, hsep⟩ := validSeg_spec hb
  cases b with
  | nil => exact absurd rfl hne
  | cons c cs =>
    simp only [isAbs, List.head?_cons]
    have : c ≠ '/' := fun h => hsep (h ▸ List.mem_cons_self _ _)
    simpa using this

/-- Joining a single valid directory-entry name appends one canonical
segment. -/
theorem canon_pathJoin (fs : FileSys) (a : List Char) {b : List Char}
    (hb : validSeg b = true) :
    canon fs (pathJoin a b) = canon fs a ++ [b] := by
  obtain ⟨hbne, hbdot, hbdd, hbs⟩ := validSeg_spec hb
  have hb_empty : b.isEmpty = false := by
    cases b with
    | nil => exact absurd rfl hbne
    | cons _ _ => rfl
  by_cases ha : a.isEmpty = true
  · have ha' : a = [] := by
      cases a with
      | nil => rfl
      | cons _ _ => simp at ha
    subst ha'
    simp only [pathJoin, List.isEmpty_nil, if_true]
    simp only [canon, isAbs_of_validSeg hb, Bool.false_eq_true, if_false,
      splitPath_nil, List.append_nil]
    rw [splitPath_single hb]
    exact collapseSegs_append_singleton _ hbdd
  · have ha' : a ≠ [] := by
      cases a with
      | nil => simp at ha
      | cons _ _ => simp
    rw [Bool.not_eq_true] at ha
    simp only [pathJoin, ha, Bool.false_eq_true, if_false, hb_empty]
    simp only [canon, isAbs_append_cons ha' '/' b, splitPath_append_sep,
      splitPath_single hb]
    rw [← List.append_assoc]
    exact collapseSegs_append_singleton _ hbdd

/-- Canonicalising a rendered absolute path of valid segments recovers
those segments. -/
theorem canon_renderAbs (fs : FileSys) {segs : List (List Char)}
    (h : ∀ s ∈ segs, validSeg s = true) :
    canon fs (renderAbs segs) = collapseSegs segs := by
  have hsp : splitPath (renderAbs segs) = segs := by
    cases segs with
    | nil => rfl
    | cons s0 rest =>
      show splitPath ([] ++ '/' :: jsJoin '/' (s0 :: rest)) = _
      rw [splitPath_append_sep, splitPath_nil, List.nil_append]
      have hns : ∀ p ∈ s0 :: rest, '/' ∉ p :=
        fun p hp => (validSeg_spec (h p hp)).2.2.2
      simp only [splitPath, jsSplit_jsJoin '/' (s0 :: rest) (by simp) hns]
      rw [List.filter_eq_self.mpr]
      intro s hs
      obtain ⟨h1, h2, _, _⟩ := validSeg_spec (h s hs)
      have he : s.isEmpty = false := by
        cases s with
        | nil => exact absurd rfl h1
        | cons _ _ => rfl
      simp [he, h2]
  have habs : isAbs (renderAbs segs) = true := rfl
  rw [canon, if_pos habs, hsp]
  simp

/-- Resolving a valid directory-entry name against any base directory
appends one canonical segment to the base's canonical key. -/
theorem canon_pathResolve (fs : FileSys) (base : List Char) {name : List Char}
    (hcwd : ∀ s ∈ fs.cwd, validSeg s = true)
    (hname : validSeg name = true) :
    canon fs (pathResolve fs base name) = canon fs base ++ [name] := by
  obtain ⟨hne, hdot, hdd, hsep⟩ := validSeg_spec hname
  have hnabs : isAbs name = false := isAbs_of_validSeg hname
  have hsplit : splitPath name = [name] := splitPath_single hname
  have main : ∀ P : List (List Char),
      (∀ s ∈ P, s ≠ [] ∧ s ≠ ['.'] ∧ '/' ∉ s) →
      canon fs (renderAbs (collapseSegs (P ++ [name]))) =
        collapseSegs P ++ [name] := by
    intro P hP
    rw [canon_renderAbs fs ?hv]
    · rw [collapseSegs_idem, collapseSegs_append_singleton _ hdd]
    · intro s hs
      obtain ⟨hsm, hsd⟩ := mem_collapseSegs hs
      rcases List.mem_append.mp hsm with h1 | h1
      · obtain ⟨a1, a2, a3⟩ := hP s h1
        exact validSeg_of a1 a2 hsd a3
      · have := List.mem_singleton.mp h1
        subst this
        exact hname
  by_cases hb : isAbs base = true
  · simp only [pathResolve, hnabs, Bool.false_eq_true, if_false, hb, if_true,
      hsplit]
    rw [main (splitPath base) (fun s hs => mem_splitPath hs)]
    simp only [canon, hb, if_true, List.nil_append]
  · rw [Bool.not_eq_true] at hb
    simp only [pathResolve, hnabs, Bool.false_eq_true, if_false, hb, hsplit]
    rw [main (fs.cwd ++ splitPath base) ?hcw]
    · simp only [canon, hb, Bool.false_eq_true, if_false]
    · intro s hs
      rcases List.mem_append.mp hs with h1 | h1
      · exact validSeg_spec (hcwd s h1) |>.imp id (fun x => x.imp id (fun y => y.2))
      · exact mem_splitPath h1

/-! ### The Film JSON round trip -/

theorem genre_rt (g : Genre) : Genre.fromJson g.toJson = some g := by
  obtain ⟨a, b⟩ := g
  rfl

theorem company_rt (c : ProductionCompany) :
    ProductionCompany.fromJson c.toJson = some c := by
  obtain ⟨a, b, lp, oc⟩ := c
  cases lp <;> rfl

theorem country_rt (c : ProductionCountry) :
    ProductionCountry.fromJson c.toJson = some c := by
  obtain ⟨a, b⟩ := c
  rfl

theorem language_rt (l : SpokenLanguage) :
    SpokenLanguage.fromJson l.toJson = some l := by
  obtain ⟨a, b, c⟩ := l
  rfl

theorem optMapM_roundtrip {α : Type} {dec : Json → Option α} {enc : α → Json}
    (h : ∀ x, dec (enc x) = some x) :
    ∀ xs : List α, optMapM dec (xs.map enc) = some xs := by
  intro xs
  induction xs with
  | nil => rfl
  | cons x xs ih => simp [optMapM, h x, ih]

theorem ratNatCast_decode (n : Nat) :
    (if (0:Int) ≤ ((n : Rat)).num ∧ ((n : Rat)).den = 1
      then some ((n : Rat)).num.toNat else none) = some n := rfl

theorem asNum_num (q : Rat) : Json.asNum (.num q) = some q := rfl
theorem asStr_str (s : List Char) : Json.asStr (.str s) = some s := rfl
theorem asBool_bool (b : Bool) : Json.asBool (.boolean b) = some b := rfl
theorem asArr_arr (xs : List Json) : Json.asArr (.arr xs) = some xs := rfl

theorem gf_id (f : Film) :
    f.toJson.getField "id".data = some (.num (f.id : Rat)) := by
  obtain ⟨fid, title, oT, ov, rD, pP, bP, gs, rt, vA, vC, pop, st, tg, bu, re,
    pCs, pCt, sL, ad, vid, oL, imdb, hp⟩ := f
  rfl

theorem gf_title (f : Film) :
    f.toJson.getField "title".data = some (.str f.title) := by
  obtain ⟨fid, title, oT, ov, rD, pP, bP, gs, rt, vA, vC, pop, st, tg, bu, re,
    pCs, pCt, sL, ad, vid, oL, imdb, hp⟩ := f
  rfl

theorem gf_originalTitle (f : Film) :
    f.toJson.getField "originalTitle".data = some (.str f.originalTitle) := by
  obtain ⟨fid, title, oT, ov, rD, pP, bP, gs, rt, vA, vC, pop, st, tg, bu, re,
    pCs, pCt, sL, ad, vid, oL, imdb, hp⟩ := f
  rfl

theorem gf_overview (f : Film) :
    f.toJson.getField "overview".data = some (.str f.overview) := by
  obtain ⟨fid, title, oT, ov, rD, pP, bP, gs, rt, vA, vC, pop, st, tg, bu, re,
    pCs, pCt, sL, ad, vid, oL, imdb, hp⟩ := f
  rfl

theorem gf_releaseDate (f : Film) :
    f.toJson.getField "releaseDate".data = some (.str f.releaseDate) := by
  obtain ⟨fid, title, oT, ov, rD, pP, bP, gs, rt, vA, vC, pop, st, tg, bu, re,
    pCs, pCt, sL, ad, vid, oL, imdb, hp⟩ := f
  rfl

theorem gf_posterPath (f : Film) :
    (f.toJson.getField "posterPath".data).bind Json.asStr = f.posterPath := by
  obtain ⟨fid, title, oT, ov, rD, pP, bP, gs, rt, vA, vC, pop, st, tg, bu, re,
    pCs, pCt, sL, ad, vid, oL, imdb, hp⟩ := f
  cases pP <;> cases bP <;> cases imdb <;> cases hp <;> rfl

theorem gf_backdropPath (f : Film) :
    (f.toJson.getField "backdropPath".data).bind Json.asStr = f.backdropPath := by
  obtain ⟨fid, title, oT, ov, rD, pP, bP, gs, rt, vA, vC, pop, st, tg, bu, re,
    pCs, pCt, sL, ad, vid, oL, imdb, hp⟩ := f
  cases pP <;> cases bP <;> cases imdb <;> cases hp <;> rfl

theorem gf_genres (f : Film) :
    f.toJson.getField "genres".data =
      some (.arr (f.genres.map Genre.toJson)) := by
  obtain ⟨fid, title, oT, ov, rD, pP, bP, gs, rt, vA, vC, pop, st, tg, bu, re,
    pCs, pCt, sL, ad, vid, oL, imdb, hp⟩ := f
  cases pP <;> cases bP <;> rfl

theorem gf_runtime (f : Film) :
    f.toJson.getField "runtime".data = some (.num f.runtime) := by
  obtain ⟨fid, title, oT, ov, rD, pP, bP, gs, rt, vA, vC, pop, st, tg, bu, re,
    pCs, pCt, sL, ad, vid, oL, imdb, hp⟩ := f
  cases pP <;> cases bP <;> rfl

theorem gf_voteAverage (f : Film) :
    f.toJson.getField "voteAverage".data = some (.num f.voteAverage) := by
  obtain ⟨fid, title, oT, ov, rD, pP, bP, gs, rt, vA, vC, pop, st, tg, bu, re,
    pCs, pCt, sL, ad, vid, oL, imdb, hp⟩ := f
  cases pP <;> cases bP <;> rfl

theorem gf_voteCount (f : Film) :
    f.toJson.getField "voteCount".data = some (.num f.voteCount) := by
  obtain ⟨fid, title, oT, ov, rD, pP, bP, gs, rt, vA, vC, pop, st, tg, bu, re,
    pCs, pCt, sL, ad, vid, oL, imdb, hp⟩ := f
  cases pP <;> cases bP <;> rfl

theorem gf_popularity (f : Film) :
    f.toJson.getField "popularity".data = some (.num f.popularity) := by
  obtain ⟨fid, title, oT, ov, rD, pP, bP, gs, rt, vA, vC, pop, st, tg, bu, re,
    pCs, pCt, sL, ad, vid, oL, imdb, hp⟩ := f
  cases pP <;> cases bP <;> rfl

theorem gf_status (f : Film) :
    f.toJson.getField "status".data = some (.str f.status) := by
  obtain ⟨fid, title, oT, ov, rD, pP, bP, gs, rt, vA, vC, pop, st, tg, bu, re,
    pCs, pCt, sL, ad, vid, oL, imdb, hp⟩ := f
  cases pP <;> cases bP <;> rfl

theorem gf_tagline (f : Film) :
    f.toJson.getField "tagline".data = some (.str f.tagline) := by
  obtain ⟨fid, title, oT, ov, rD, pP, bP, gs, rt, vA, vC, pop, st, tg, bu, re,
    pCs, pCt, sL, ad, vid, oL, imdb, hp⟩ := f
  cases pP <;> cases bP <;> rfl

theorem gf_budget (f : Film) :
    f.toJson.getField "budget".data = some (.num f.budget) := by
  obtain ⟨fid, title, oT, ov, rD, pP, bP, gs, rt, vA, vC, pop, st, tg, bu, re,
    pCs, pCt, sL, ad, vid, oL, imdb, hp⟩ := f
  cases pP <;> cases bP <;> rfl

theorem gf_revenue (f : Film) :
    f.toJson.getField "revenue".data = some (.num f.revenue) := by
  obtain ⟨fid, title, oT, ov, rD, pP, bP, gs, rt, vA, vC, pop, st, tg, bu, re,
    pCs, pCt, sL, ad, vid, oL, imdb, hp⟩ := f
  cases pP <;> cases bP <;> rfl

theorem gf_productionCompanies (f : Film) :
    f.toJson.getField "productionCompanies".data =
      some (.arr (f.productionCompanies.map ProductionCompany.toJson)) := by
  obtain ⟨fid, title, oT, ov, rD, pP, bP, gs, rt, vA, vC, pop, st, tg, bu, re,
    pCs, pCt, sL, ad, vid, oL, imdb, hp⟩ := f
  cases pP <;> cases bP <;> rfl

theorem gf_productionCountries (f : Film) :
    f.toJson.getField "productionCountries".data =
      some (.arr (f.productionCountries.map ProductionCountry.toJson)) := by
  obtain ⟨fid, title, oT, ov, rD, pP, bP, gs, rt, vA, vC, pop, st, tg, bu, re,
    pCs, pCt, sL, ad, vid, oL, imdb, hp⟩ := f
  cases pP <;> cases bP <;> rfl

theorem gf_spokenLanguages (f : Film) :
    f.toJson.getField "spokenLanguages".data =
      some (.arr (f.spokenLanguages.map SpokenLanguage.toJson)) := by
  obtain ⟨fid, title, oT, ov, rD, pP, bP, gs, rt, vA, vC, pop, st, tg, bu, re,
    pCs, pCt, sL, ad, vid, oL, imdb, hp⟩ := f
  cases pP <;> cases bP <;> rfl

theorem gf_adult (f : Film) :
    f.toJson.getField "adult".data = some (.boolean f.adult) := by
  obtain ⟨fid, title, oT, ov, rD, pP, bP, gs, rt, vA, vC, pop, st, tg, bu, re,
    pCs, pCt, sL, ad, vid, oL, imdb, hp⟩ := f
  cases pP <;> cases bP <;> rfl

theorem gf_video (f : Film) :
    f.toJson.getField "video".data = some (.boolean f.video) := by
  obtain ⟨fid, title, oT, ov, rD, pP, bP, gs, rt, vA, vC, pop, st, tg, bu, re,
    pCs, pCt, sL, ad, vid, oL, imdb, hp⟩ := f
  cases pP <;> cases bP <;> rfl

theorem gf_originalLanguage (f : Film) :
    f.toJson.getField "originalLanguage".data =
      some (.str f.originalLanguage) := by
  obtain ⟨fid, title, oT, ov, rD, pP, bP, gs, rt, vA, vC, pop, st, tg, bu, re,
    pCs, pCt, sL, ad, vid, oL, imdb, hp⟩ := f
  cases pP <;> cases bP <;> rfl

theorem gf_imdbId (f : Film) :
    (f.toJson.getField "imdbId".data).bind Json.asStr = f.imdbId := by
  obtain ⟨fid, title, oT, ov, rD, pP, bP, gs, rt, vA, vC, pop, st, tg, bu, re,
    pCs, pCt, sL, ad, vid, oL, imdb, hp⟩ := f
  cases pP <;> cases bP <;> cases imdb <;> cases hp <;> rfl

theorem gf_homepage (f : Film) :
    (f.toJson.getField "homepage".data).bind Json.asStr = f.homepage := by
  obtain ⟨fid, title, oT, ov, rD, pP, bP, gs, rt, vA, vC, pop, st, tg, bu, re,
    pCs, pCt, sL, ad, vid, oL, imdb, hp⟩ := f
  cases pP <;> cases bP <;> cases imdb <;> cases hp <;> rfl

/-- Parsing the JSON image of a film recovers the film: the unchecked
`JSON.parse(...) as Film` cast is sound on data the save path wrote. -/
theorem fromJson_toJson (f : Film) : Film.fromJson f.toJson = some f := by
  simp only [Film.fromJson, filmStrings, filmNumbers, filmLists,
    gf_id f, gf_title f, gf_originalTitle f, gf_overview f, gf_releaseDate f,
    gf_posterPath f, gf_backdropPath f, gf_genres f, gf_runtime f,
    gf_voteAverage f, gf_voteCount f, gf_popularity f, gf_status f,
    gf_tagline f, gf_budget f, gf_revenue f, gf_productionCompanies f,
    gf_productionCountries f, gf_spokenLanguages f, gf_adult f, gf_video f,
    gf_originalLanguage f, gf_imdbId f, gf_homepage f,
    asNum_num, asStr_str, asBool_bool, asArr_arr,
    Option.bind_eq_bind, Option.some_bind, ratNatCast_decode,
    optMapM_roundtrip genre_rt, optMapM_roundtrip company_rt,
    optMapM_roundtrip country_rt, optMapM_roundtrip language_rt]
  rw [if_pos ⟨by rw [Rat.num_natCast]; exact Int.natCast_nonneg _,
    Rat.den_natCast f.id⟩]
  simp only [Option.pure_def, Option.some_bind, Rat.num_natCast,
    Int.toNat_natCast]

/-! ### Claim C3: directory names are collision-free and safe -/

/-- C3: two films with the same title but different ids always get
different directory names, and a directory name never contains an
invalid filesystem character or whitespace. -/
theorem claim_C3 :
    (∀ (id1 id2 : Nat) (title : List Char), id1 ≠ id2 →
      createFilmDirectoryName id1 title ≠ createFilmDirectoryName id2 title) ∧
    (∀ (id : Nat) (title : List Char) (c : Char),
      c ∈ createFilmDirectoryName id title →
        isInvalidChar c = false ∧ isWsChar c = false) := by
  constructor
  · intro id1 id2 title hne heq
    apply hne
    apply natToChars_inj
    have hlen : (natToChars id1).length = (natToChars id2).length := by
      have := congrArg List.length heq
      simp only [createFilmDirectoryName, List.length_append,
        List.length_cons] at this
      omega
    exact (List.append_inj heq hlen).1
  · intro id title c hc
    simp only [createFilmDirectoryName, List.mem_append, List.mem_cons] at hc
    rcases hc with h | h | h
    · obtain ⟨d, hd, rfl⟩ := mem_natToChars _ h
      exact ⟨(digitChar_props hd).2.1, (digitChar_props hd).2.2⟩
    · subst h
      exact ⟨by decide, by decide⟩
    · exact mem_sanitizeFilename h

/-- C3 witness at ids 1 and 2 with title `"Up"`. -/
theorem claim_C3_witness :
    createFilmDirectoryName 1 "Up".data ≠ createFilmDirectoryName 2 "Up".data ∧
      (isInvalidChar 'U' = false ∧ isWsChar 'U' = false) :=
  ⟨claim_C3.1 1 2 "Up".data (by decide),
    claim_C3.2 1 "Up".data 'U' (by decide)⟩

/-! ### Claim C9: idempotence of sanitisation -/

set_option maxRecDepth 100000 in
/-- C9 counterexample: sanitising a 256-character title whose hyphen
sits at position 254 is not idempotent — truncation reintroduces a
trailing hyphen which a second pass strips. -/
theorem claim_C9_cex :
    sanitizeFilename (sanitizeFilename longTitle) ≠ sanitizeFilename longTitle := by
  decide

/-- C9 (amended): `sanitizeFilename` is idempotent on every input of
length at most 255 (for longer inputs the 255-character truncation,
applied after hyphen trimming, can reintroduce a trailing hyphen). -/
theorem claim_C9 :
    ∀ l : List Char, l.length ≤ 255 →
      sanitizeFilename (sanitizeFilename l) = sanitizeFilename l :=
  fun _ h => sanitizeFilename_idem h

/-- C9 witness at the short title `"a b:c"`. -/
theorem claim_C9_witness :
    "a b:c".data.length ≤ 255 ∧
      sanitizeFilename (sanitizeFilename "a b:c".data) =
        sanitizeFilename "a b:c".data :=
  ⟨by decide, claim_C9 _ (by decide)⟩

/-! ### Claim C10: the export command recovers the sanitized title -/

/-- C10: the export command's `extractFilmName` applied to
`createFilmDirectoryName id title` returns exactly
`sanitizeFilename title`. -/
theorem claim_C10 :
    ∀ (id : Nat) (title : List Char),
      extractFilmName (createFilmDirectoryName id title) =
        sanitizeFilename title := by
  intro id title
  have hnm : '-' ∉ natToChars id := hyphen_not_mem_natToChars id
  show extractFilmName (natToChars id ++ '-' :: sanitizeFilename title) = _
  simp only [extractFilmName]
  rw [jsSplit_append_sep _ hnm]
  obtain ⟨h0, t0, hsh⟩ := jsSplit_shape '-' (sanitizeFilename title)
  rw [hsh]
  have hgt : (natToChars id :: h0 :: t0).length > 1 := by
    simp only [List.length_cons]
    omega
  rw [if_pos hgt]
  simp only [List.drop_succ_cons, List.drop_zero]
  rw [← hsh, jsJoin_jsSplit]

/-! ### Storage lemmas -/

theorem canon_writeFile (fs : FileSys) (p : List Char) (d : FileData)
    (q : List Char) : canon (writeFile fs p d) q = canon fs q := rfl

theorem canon_ensure (fs : FileSys) (p q : List Char) :
    canon (ensureDirectoryExists fs p) q = canon fs q := by
  rw [ensureDirectoryExists]
  split <;> rfl

theorem files_ensure (fs : FileSys) (p : List Char) :
    (ensureDirectoryExists fs p).files = fs.files := by
  rw [ensureDirectoryExists]
  split <;> rfl

theorem canon_download (fs : FileSys) (film : Film) (d : List Char)
    (o : DlOracle) (q : List Char) :
    canon (downloadFilmImages fs film d o) q = canon fs q := by
  rcases o with ⟨po, bo⟩
  by_cases hp : strTruthy film.posterPath <;>
    by_cases hb : strTruthy film.backdropPath <;>
    cases po <;> cases bo <;>
    simp [downloadFilmImages, hp, hb, writeFile, canon]

theorem lookupFile_writeFile (fs : FileSys) (p : List Char) (d : FileData)
    (k : List (List Char)) :
    (writeFile fs p d).lookupFile k =
      if canon fs p = k then some d else fs.lookupFile k := by
  by_cases hk : canon fs p = k
  · simp [writeFile, FileSys.lookupFile, List.find?_cons, hk]
  · simp [writeFile, FileSys.lookupFile, List.find?_cons, hk]

theorem lookup_download (fs : FileSys) (film : Film) (d : List Char)
    (o : DlOracle) (k : List (List Char))
    (h1 : canon fs (pathJoin d "poster.jpg".data) ≠ k)
    (h2 : canon fs (pathJoin d "backdrop.jpg".data) ≠ k) :
    (downloadFilmImages fs film d o).lookupFile k = fs.lookupFile k := by
  rcases o with ⟨po, bo⟩
  by_cases hp : strTruthy film.posterPath <;>
    by_cases hb : strTruthy film.backdropPath <;>
    cases po <;> cases bo <;>
    simp [downloadFilmImages, hp, hb, lookupFile_writeFile, canon_writeFile,
      h1, h2]

theorem natToChars_ne_nil (n : Nat) : natToChars n ≠ [] := by
  rw [natToChars_eq]
  split <;> simp

theorem validSeg_createFilmDirectoryName (id : Nat) (title : List Char) :
    validSeg (createFilmDirectoryName id title) = true := by
  have hnn := natToChars_ne_nil id
  have hlen : (natToChars id).length ≠ 0 := by
    simpa [List.length_eq_zero] using hnn
  apply validSeg_of
  · intro h
    have := congrArg List.length h
    simp only [createFilmDirectoryName, List.length_append, List.length_cons,
      List.length_nil] at this
    omega
  · intro h
    have := congrArg List.length h
    simp only [createFilmDirectoryName, List.length_append, List.length_cons,
      List.length_nil, List.length_singleton] at this
    omega
  · intro h
    cases hx : natToChars id with
    | nil => exact hnn hx
    | cons c cs =>
      simp only [createFilmDirectoryName, hx, List.cons_append] at h
      have hc : c = '.' := by
        have := congrArg List.head? h
        simpa using this
      obtain ⟨d, hd10, hde⟩ :=
        mem_natToChars id (hx ▸ List.mem_cons_self c cs)
      have hall : ∀ d : Nat, d < 10 → digitChar d ≠ '.' := by decide
      exact hall d hd10 (hde ▸ hc)
  · intro hmem
    simp only [createFilmDirectoryName, List.mem_append, List.mem_cons] at hmem
    rcases hmem with h | h | h
    · obtain ⟨d, hd, he⟩ := mem_natToChars id h
      have hprops := (digitChar_props hd).2.1
      rw [← he] at hprops
      exact absurd hprops (by decide)
    · exact absurd h (by decide)
    · exact absurd (mem_sanitizeFilename h).1 (by decide)

theorem append_singleton_ne {α : Type} {A : List α} {x y : α} (h : x ≠ y) :
    A ++ [x] ≠ A ++ [y] := by
  intro he
  have := List.append_cancel_left he
  simp only [List.cons.injEq, and_true] at this
  exact h this

/-- After `saveFilm`, the canonical key of the film's `data.json` holds
the film's JSON image. -/
theorem lookup_saveFilm_data (fs : FileSys) (cfg : StorageCfg) (film : Film)
    (dir : Option (List Char)) (oracle : DlOracle)
    (hcwd : ∀ s ∈ fs.cwd, validSeg s = true) :
    (saveFilm fs cfg film dir oracle).1.lookupFile
        (canon fs (effBaseDir dir cfg.defaultOutputDir) ++
          [createFilmDirectoryName film.id film.title] ++ ["data.json".data]) =
      some (.jsonF film.toJson) := by
  set base := effBaseDir dir cfg.defaultOutputDir with hbase
  set name := createFilmDirectoryName film.id film.title with hnamedef
  have hvname : validSeg name = true := validSeg_createFilmDirectoryName _ _
  have hres : canon fs (pathResolve fs base name) = canon fs base ++ [name] :=
    canon_pathResolve fs base hcwd hvname
  set A := canon fs base ++ [name] with hA
  set K := A ++ ["data.json".data] with hK
  have hkey : ∀ seg : List Char, validSeg seg = true →
      canon fs (pathJoin (pathResolve fs base name) seg) = A ++ [seg] := by
    intro seg hseg
    rw [canon_pathJoin fs _ hseg, hres]
  have hdata : canon fs (pathJoin (pathResolve fs base name) "data.json".data) =
      K := hkey _ (by decide)
  have hmeta : canon fs (pathJoin (pathResolve fs base name) "metadata.txt".data) =
      A ++ ["metadata.txt".data] := hkey _ (by decide)
  have hposter : canon fs (pathJoin (pathResolve fs base name) "poster.jpg".data) =
      A ++ ["poster.jpg".data] := hkey _ (by decide)
  have hbackdrop :
      canon fs (pathJoin (pathResolve fs base name) "backdrop.jpg".data) =
      A ++ ["backdrop.jpg".data] := hkey _ (by decide)
  simp only [saveFilm, ← hbase, ← hnamedef]
  by_cases hdl : cfg.downloadImages
  · rw [if_pos hdl]
    rw [lookup_download]
    · rw [lookupFile_writeFile, canon_writeFile, canon_ensure, hmeta,
        if_neg (hK ▸ append_singleton_ne (by decide)),
        lookupFile_writeFile, canon_ensure, hdata, if_pos rfl]
    · rw [canon_writeFile, canon_writeFile, canon_ensure, hposter]
      exact hK ▸ append_singleton_ne (by decide)
    · rw [canon_writeFile, canon_writeFile, canon_ensure, hbackdrop]
      exact hK ▸ append_singleton_ne (by decide)
  · rw [if_neg hdl]
    rw [lookupFile_writeFile, canon_writeFile, canon_ensure, hmeta,
      if_neg (hK ▸ append_singleton_ne (by decide)),
      lookupFile_writeFile, canon_ensure, hdata, if_pos rfl]

theorem canon_saveFilm (fs : FileSys) (cfg : StorageCfg) (film : Film)
    (dir : Option (List Char)) (oracle : DlOracle) (q : List Char) :
    canon (saveFilm fs cfg film dir oracle).1 q = canon fs q := by
  simp only [saveFilm]
  by_cases hdl : cfg.downloadImages <;>
    simp [hdl, canon_download, canon_writeFile, canon_ensure]

/-! ### Claim C1: the save/load round trip -/

/-- C1: saving a film and reading it back under the directory name
`createFilmDirectoryName(film.id, film.title)` returns the film's JSON
image, which decodes to a `Film` deep-equal to the original —
irrespective of image-download outcomes.  (The working directory is
assumed to consist of real directory names.) -/
theorem claim_C1 :
    ∀ (fs : FileSys) (cfg : StorageCfg) (film : Film)
      (dir : Option (List Char)) (oracle : DlOracle),
      (∀ s ∈ fs.cwd, validSeg s = true) →
      getSavedFilm (saveFilm fs cfg film dir oracle).1 cfg
          (createFilmDirectoryName film.id film.title) dir =
        some film.toJson ∧
      Film.fromJson film.toJson = some film := by
  intro fs cfg film dir oracle hcwd
  refine ⟨?_, fromJson_toJson film⟩
  set base := effBaseDir dir cfg.defaultOutputDir with hbase
  set name := createFilmDirectoryName film.id film.title with hnamedef
  have hvname : validSeg name = true := validSeg_createFilmDirectoryName _ _
  have hread : canon fs (pathJoin (pathJoin base name) "data.json".data) =
      canon fs base ++ [name] ++ ["data.json".data] := by
    rw [canon_pathJoin fs _ (show validSeg "data.json".data = true by decide),
      canon_pathJoin fs _ hvname]
  have hlook := lookup_saveFilm_data fs cfg film dir oracle hcwd
  rw [← hbase, ← hnamedef] at hlook
  have hcanon := canon_saveFilm fs cfg film dir oracle
    (pathJoin (pathJoin base name) "data.json".data)
  simp only [getSavedFilm, ← hbase]
  have hlook2 : (saveFilm fs cfg film dir oracle).1.lookupFile
      (canon (saveFilm fs cfg film dir oracle).1
        (pathJoin (pathJoin base name) "data.json".data)) =
      some (.jsonF film.toJson) := by
    rw [hcanon, hread]
    exact hlook
  have hfe : fileExists (saveFilm fs cfg film dir oracle).1
      (pathJoin (pathJoin base name) "data.json".data) = true := by
    simp only [fileExists, existsSync, FileSys.isFile, hlook2, Option.isSome_some,
      Bool.true_or]
  rw [if_pos hfe, hlook2]

/-- C1 witness at a concrete store, config and film. -/
theorem claim_C1_witness :
    getSavedFilm
        (saveFilm ⟨[], [], []⟩ ⟨"films".data, true⟩ witnessFilm none
          ⟨none, none⟩).1 ⟨"films".data, true⟩
        (createFilmDirectoryName witnessFilm.id witnessFilm.title) none =
      some witnessFilm.toJson ∧
    Film.fromJson witnessFilm.toJson = some witnessFilm :=
  claim_C1 ⟨[], [], []⟩ ⟨"films".data, true⟩ witnessFilm none ⟨none, none⟩
    (by decide)

/-! ### Claim C6: image-download failures never fail a save -/

/-- C6: with directory creation and the `data.json` write succeeding
(as they do in this model), `saveFilm` completes and returns the film
directory path whatever the download outcomes, and `data.json` is in
place; a failed image download is never surfaced. -/
theorem claim_C6 :
    ∀ (fs : FileSys) (cfg : StorageCfg) (film : Film)
      (dir : Option (List Char)) (oracle : DlOracle),
      (∀ s ∈ fs.cwd, validSeg s = true) →
      (saveFilm fs cfg film dir oracle).2 =
        pathResolve fs (effBaseDir dir cfg.defaultOutputDir)
          (createFilmDirectoryName film.id film.title) ∧
      fileExists (saveFilm fs cfg film dir oracle).1
        (pathJoin (pathJoin (effBaseDir dir cfg.defaultOutputDir)
          (createFilmDirectoryName film.id film.title)) "data.json".data) =
        true := by
  intro fs cfg film dir oracle hcwd
  refine ⟨rfl, ?_⟩
  set base := effBaseDir dir cfg.defaultOutputDir with hbase
  set name := createFilmDirectoryName film.id film.title with hnamedef
  have hvname : validSeg name = true := validSeg_createFilmDirectoryName _ _
  have hread : canon fs (pathJoin (pathJoin base name) "data.json".data) =
      canon fs base ++ [name] ++ ["data.json".data] := by
    rw [canon_pathJoin fs _ (show validSeg "data.json".data = true by decide),
      canon_pathJoin fs _ hvname]
  have hlook := lookup_saveFilm_data fs cfg film dir oracle hcwd
  rw [← hbase, ← hnamedef] at hlook
  have hcanon := canon_saveFilm fs cfg film dir oracle
    (pathJoin (pathJoin base name) "data.json".data)
  have hlook2 : (saveFilm fs cfg film dir oracle).1.lookupFile
      (canon (saveFilm fs cfg film dir oracle).1
        (pathJoin (pathJoin base name) "data.json".data)) =
      some (.jsonF film.toJson) := by
    rw [hcanon, hread]
    exact hlook
  simp only [fileExists, existsSync, FileSys.isFile, hlook2, Option.isSome_some,
    Bool.true_or]

/-- C6 witness: both downloads fail, the save still returns the film
directory and `data.json` exists. -/
theorem claim_C6_witness :
    (saveFilm ⟨[], [], []⟩ ⟨"films".data, true⟩ witnessFilm none
        ⟨none, none⟩).2 =
      pathResolve ⟨[], [], []⟩ "films".data
        (createFilmDirectoryName witnessFilm.id witnessFilm.title) ∧
    fileExists
        (saveFilm ⟨[], [], []⟩ ⟨"films".data, true⟩ witnessFilm none
          ⟨none, none⟩).1
        (pathJoin (pathJoin "films".data
          (createFilmDirectoryName witnessFilm.id witnessFilm.title))
          "data.json".data) = true :=
  claim_C6 ⟨[], [], []⟩ ⟨"films".data, true⟩ witnessFilm none ⟨none, none⟩
    (by decide)

/-! ### Claim C4: recognition of saved-film directories -/

theorem mem_readdirNames {fs : FileSys} {key : List (List Char)}
    {name : List Char} :
    name ∈ readdirNames fs key ↔
      ∃ k, (k ∈ fs.files.map (fun e => e.1) ∨ k ∈ fs.dirs) ∧
        k.take key.length = key ∧ (k.drop key.length).head? = some name := by
  simp only [readdirNames, List.mem_dedup, List.mem_filterMap, List.mem_append]
  constructor
  · rintro ⟨k, hk, hval⟩
    by_cases ht : (k.take key.length == key) = true
    · rw [if_pos ht] at hval
      exact ⟨k, hk, by simpa using ht, hval⟩
    · rw [if_neg ht] at hval
      simp at hval
  · rintro ⟨k, hk, ht, hh⟩
    refine ⟨k, hk, ?_⟩
    rw [if_pos (by simpa using ht)]
    exact hh

theorem isDirKey_mem {fs : FileSys} {k : List (List Char)}
    (h : fs.isDirKey k = true) : k ∈ fs.dirs := by
  simpa [FileSys.isDirKey] using List.elem_iff.mp h

/-- C4 (amended): a directory name is listed exactly when it is an
immediate subdirectory of the base directory containing a `data.json`
entry — a file or (because the code checks with `fs.existsSync`) even a
directory of that name; `metadata.txt` and images play no role.  A
missing base directory yields the empty list; the listing is a total
function, so it never raises. -/
theorem claim_C4 :
    ∀ (fs : FileSys) (cfg : StorageCfg) (dir : Option (List Char)),
      fs.ValidKeys →
      (directoryExists fs (effBaseDir dir cfg.defaultOutputDir) = false →
        listSavedFilms fs cfg dir = []) ∧
      ∀ name, name ∈ listSavedFilms fs cfg dir ↔
        (directoryExists fs (effBaseDir dir cfg.defaultOutputDir) = true ∧
         fs.isDirKey
           (canon fs (effBaseDir dir cfg.defaultOutputDir) ++ [name]) = true ∧
         (fs.isFile (canon fs (effBaseDir dir cfg.defaultOutputDir) ++ [name] ++
            ["data.json".data]) = true ∨
          fs.isDirKey (canon fs (effBaseDir dir cfg.defaultOutputDir) ++ [name] ++
            ["data.json".data]) = true)) := by
  intro fs cfg dir hwf
  set base := effBaseDir dir cfg.defaultOutputDir with hbase
  constructor
  · intro h
    simp [listSavedFilms, ← hbase, h]
  · intro name
    by_cases hd : directoryExists fs base = true
    · have hdj : validSeg "data.json".data = true := by decide
      constructor
      · intro hmem
        simp only [listSavedFilms, ← hbase, hd, if_true, List.mem_filter,
          getDirectoryContents, Bool.and_eq_true] at hmem
        obtain ⟨hin, hpred1, hpred2⟩ := hmem
        obtain ⟨k, hk, htake, hdrop⟩ := mem_readdirNames.mp hin
        have hnk : name ∈ k := by
          rcases hx : k.drop (canon fs base).length with _ | ⟨a, t⟩
          · rw [hx] at hdrop
            simp at hdrop
          · rw [hx] at hdrop
            simp only [List.head?_cons, Option.some.injEq] at hdrop
            subst hdrop
            exact (List.drop_subset _ k) (hx ▸ List.mem_cons_self _ _)
        have hvname : validSeg name = true :=
          hwf k (List.mem_append.mpr hk) name hnk
        have hcj : canon fs (pathJoin base name) = canon fs base ++ [name] :=
          canon_pathJoin fs base hvname
        have hcj2 : canon fs (pathJoin (pathJoin base name) "data.json".data) =
            canon fs base ++ [name] ++ ["data.json".data] := by
          rw [canon_pathJoin fs _ hdj, hcj]
        refine ⟨hd, ?_, ?_⟩
        · rw [directoryExists, hcj] at hpred1
          exact hpred1
        · rw [fileExists, existsSync, hcj2, Bool.or_eq_true] at hpred2
          exact hpred2
      · rintro ⟨-, hdir, hfile⟩
        have hkmem : canon fs base ++ [name] ∈ fs.dirs := isDirKey_mem hdir
        have hvname : validSeg name = true :=
          hwf _ (List.mem_append.mpr (Or.inr hkmem)) name
            (List.mem_append.mpr (Or.inr (List.mem_singleton.mpr rfl)))
        have hcj : canon fs (pathJoin base name) = canon fs base ++ [name] :=
          canon_pathJoin fs base hvname
        have hcj2 : canon fs (pathJoin (pathJoin base name) "data.json".data) =
            canon fs base ++ [name] ++ ["data.json".data] := by
          rw [canon_pathJoin fs _ hdj, hcj]
        simp only [listSavedFilms, ← hbase, hd, if_true, List.mem_filter,
          getDirectoryContents, Bool.and_eq_true]
        refine ⟨?_, ?_, ?_⟩
        · apply mem_readdirNames.mpr
          refine ⟨canon fs base ++ [name], Or.inr hkmem, ?_, ?_⟩
          · exact List.take_left _ _
          · rw [List.drop_left]
            rfl
        · rw [directoryExists, hcj]
          exact hdir
        · rw [fileExists, existsSync, hcj2, Bool.or_eq_true]
          exact hfile
    · rw [Bool.not_eq_true] at hd
      constructor
      · intro hmem
        simp [listSavedFilms, ← hbase, hd] at hmem
      · rintro ⟨hd2, -, -⟩
        rw [hd] at hd2
        cases hd2

/-- C4 counterexample to the original claim: a subdirectory whose
`data.json` is itself a directory is still listed (the code checks
existence with `fs.existsSync`, which is true for directories), yet it
contains no `data.json` file. -/
theorem claim_C4_cex :
    listSavedFilms cexFs ⟨"films".data, true⟩ (some "films".data) =
        ["1-x".data] ∧
      cexFs.isFile ["films".data, "1-x".data, "data.json".data] = false := by
  constructor
  · decide
  · decide

/-- C4 witness: in a store with one saved film and one bare directory,
only the film directory is listed. -/
theorem claim_C4_witness :
    ("1-x".data ∈ listSavedFilms
        ⟨[], [(["films".data, "1-x".data, "data.json".data], .binF 7)],
          [["films".data], ["films".data, "1-x".data],
           ["films".data, "empty".data]]⟩
        ⟨"films".data, true⟩ (some "films".data)) ∧
    ¬("empty".data ∈ listSavedFilms
        ⟨[], [(["films".data, "1-x".data, "data.json".data], .binF 7)],
          [["films".data], ["films".data, "1-x".data],
           ["films".data, "empty".data]]⟩
        ⟨"films".data, true⟩ (some "films".data)) := by
  constructor
  · exact ((claim_C4 _ _ _
      (by unfold FileSys.ValidKeys; decide)).2 _).mpr ⟨by decide, by decide,
      Or.inl (by decide)⟩
  · intro h
    have := ((claim_C4 _ _ _ (by unfold FileSys.ValidKeys; decide)).2 _).mp h
    have h2 := this.2.2
    rcases h2 with h2 | h2 <;> revert h2 <;> decide

/-! ### Claim C8: storage statistics -/

/-- C8: with no saved films (missing base directory, or none
recognised) the statistics are all zero, and `totalFilms` always
equals the length of `listSavedFilms` on the same state. -/
theorem claim_C8 :
    ∀ (fs : FileSys) (cfg : StorageCfg) (dir : Option (List Char)),
      ((directoryExists fs (effBaseDir dir cfg.defaultOutputDir) = false ∨
          listSavedFilms fs cfg dir = []) →
        getStorageStats fs cfg dir = ⟨0, 0, 0⟩) ∧
      (getStorageStats fs cfg dir).totalFilms =
        (listSavedFilms fs cfg dir).length := by
  intro fs cfg dir
  constructor
  · intro h
    rcases h with h | h
    · simp [getStorageStats, h]
    · by_cases hd : directoryExists fs (effBaseDir dir cfg.defaultOutputDir) = true
      · simp [getStorageStats, hd, h]
      · rw [Bool.not_eq_true] at hd
        simp [getStorageStats, hd]
  · by_cases hd : directoryExists fs (effBaseDir dir cfg.defaultOutputDir) = true
    · simp [getStorageStats, hd]
    · rw [Bool.not_eq_true] at hd
      simp [getStorageStats, listSavedFilms, hd]

/-- C8 witness: the empty store has all-zero statistics, and a store
with one film reports `totalFilms = 1`. -/
theorem claim_C8_witness :
    getStorageStats ⟨[], [], []⟩ ⟨"films".data, true⟩ none = ⟨0, 0, 0⟩ ∧
    (getStorageStats
        ⟨[], [(["films".data, "1-x".data, "data.json".data], .binF 7)],
          [["films".data], ["films".data, "1-x".data]]⟩
        ⟨"films".data, true⟩ none).totalFilms =
      (listSavedFilms
        ⟨[], [(["films".data, "1-x".data, "data.json".data], .binF 7)],
          [["films".data], ["films".data, "1-x".data]]⟩
        ⟨"films".data, true⟩ none).length :=
  ⟨(claim_C8 _ _ _).1 (Or.inl (by decide)), (claim_C8 _ _ _).2⟩

/-! ### Claim C2: config loading tolerates malformed preferences -/

theorem vmc_imageQuality (raw : RawConfigFile) :
    (validateAndMergeConfig raw).user.imageQuality =
      if (mergeUser raw.user).imageQuality.isStrIn qualityNames
      then (mergeUser raw.user).imageQuality
      else Json.str "medium".data := by
  by_cases h1 : (mergeUser raw.user).tmdbApiKey.truthy <;>
    by_cases h2 : (mergeUser raw.user).imageQuality.isStrIn qualityNames <;>
    by_cases h3 : (mergeUser raw.user).maxImageSize.isStrIn sizeNames <;>
    simp [validateAndMergeConfig, h1, h2, h3]

theorem vmc_maxImageSize (raw : RawConfigFile) :
    (validateAndMergeConfig raw).user.maxImageSize =
      if (mergeUser raw.user).maxImageSize.isStrIn sizeNames
      then (mergeUser raw.user).maxImageSize
      else Json.str "w500".data := by
  by_cases h1 : (mergeUser raw.user).tmdbApiKey.truthy <;>
    by_cases h2 : (mergeUser raw.user).imageQuality.isStrIn qualityNames <;>
    by_cases h3 : (mergeUser raw.user).maxImageSize.isStrIn sizeNames <;>
    simp [validateAndMergeConfig, h1, h2, h3]

/-- C2: loading a persisted config never fails on a missing or invalid
preference field: the result always carries `imageQuality` and
`maxImageSize` within their enumerations, and an invalid stored
`imageQuality` is replaced by `medium`. -/
theorem claim_C2 :
    ∀ file : Option RawConfigFile,
      ((loadConfig file).user.imageQuality.isStrIn qualityNames = true ∧
        (loadConfig file).user.maxImageSize.isStrIn sizeNames = true) ∧
      (∀ raw ru v, file = some raw → raw.user = some ru →
        ru.imageQuality = some v → v.isStrIn qualityNames = false →
          (loadConfig file).user.imageQuality = Json.str "medium".data) := by
  intro file
  constructor
  · cases file with
    | none => exact ⟨by decide, by decide⟩
    | some raw =>
      constructor
      · show (validateAndMergeConfig raw).user.imageQuality.isStrIn _ = true
        rw [vmc_imageQuality]
        by_cases h2 : (mergeUser raw.user).imageQuality.isStrIn qualityNames
        · rw [if_pos h2]; exact h2
        · simp [h2]
          decide
      · show (validateAndMergeConfig raw).user.maxImageSize.isStrIn _ = true
        rw [vmc_maxImageSize]
        by_cases h3 : (mergeUser raw.user).maxImageSize.isStrIn sizeNames
        · rw [if_pos h3]; exact h3
        · simp [h3]
          decide
  · intro raw ru v hf hu hv hnot
    subst hf
    show (validateAndMergeConfig raw).user.imageQuality = _
    rw [vmc_imageQuality]
    have hq : (mergeUser raw.user).imageQuality = v := by
      simp [mergeUser, hu, mergeField, hv]
    rw [hq, hnot]
    simp

/-- C2 witness: a stored `imageQuality` of `"ultra"` is replaced by
`"medium"`. -/
theorem claim_C2_witness :
    (loadConfig (some ⟨some ⟨none, none, some (Json.str "ultra".data), none,
        none, none, none⟩, none, none⟩)).user.imageQuality =
      Json.str "medium".data :=
  (claim_C2 _).2 _ _ _ rfl rfl rfl (by decide)

/-! ### Claim C5: API-key resolution order -/

/-- C5: `getApiKey` returns the credentials-file key when that file
yields one; otherwise the `TMDB_API_KEY` environment value when set
(non-empty); otherwise `null`.  A missing or corrupt credentials file
is treated as absent credentials, not an error. -/
theorem claim_C5 :
    (∀ (cred : CredFile) (env : Option (List Char)) (k : Json),
      loadCredentials cred = some k → getApiKey cred env = some k) ∧
    (∀ (cred : CredFile) (env : Option (List Char)) (s : List Char),
      loadCredentials cred = none → env = some s → s ≠ [] →
        getApiKey cred env = some (.str s)) ∧
    (∀ cred : CredFile, loadCredentials cred = none →
      getApiKey cred none = none ∧ getApiKey cred (some []) = none) ∧
    loadCredentials CredFile.absent = none ∧
    loadCredentials CredFile.corrupt = none := by
  refine ⟨?_, ?_, ?_, rfl, rfl⟩
  · intro cred env k h
    simp [getApiKey, h]
  · intro cred env s h hs hne
    subst hs
    simp [getApiKey, h, List.isEmpty_iff, hne]
  · intro cred h
    simp [getApiKey, h, List.isEmpty_iff]

/-- C5 witness: no credentials file and `TMDB_API_KEY=xyz` yields
`"xyz"`. -/
theorem claim_C5_witness :
    getApiKey CredFile.absent (some "xyz".data) = some (.str "xyz".data) :=
  claim_C5.2.1 CredFile.absent (some "xyz".data) "xyz".data rfl rfl (by decide)

/-! ### Claim C7: search-parameter validation -/

/-- C7 (amended): `validateSearchParams` raises an `APIError` with
status 400 exactly when the trimmed query is shorter than two
characters (this covers empty and whitespace-only queries) or a
supplied NONZERO year lies outside `[1888, currentYear + 1]` (a year
of `0` is falsy in JS and skips the range check). -/
theorem claim_C7 :
    ∀ (p : SearchParams) (cy : Int),
      ((validateSearchParams p cy).isSome = true ↔
        (jsTrim p.query).length < 2 ∨
          ∃ y, p.year = some y ∧ y ≠ 0 ∧ (y < 1888 ∨ y > cy + 1)) ∧
      ∀ e, validateSearchParams p cy = some e → e.status = 400 := by
  intro p cy
  unfold validateSearchParams
  by_cases h1 : (p.query.isEmpty || (jsTrim p.query).isEmpty) = true
  · simp only [h1, if_true]
    have hlen : (jsTrim p.query).length < 2 := by
      rcases Bool.or_eq_true_iff.mp h1 with h | h
      · have hq : p.query = [] := List.isEmpty_iff.mp h
        rw [hq]
        decide
      · rw [List.isEmpty_iff.mp h]
        decide
    constructor
    · simp only [Option.isSome_some, true_iff]
      exact Or.inl hlen
    · intro e he
      rw [← Option.some_inj.mp he]
  · rw [Bool.not_eq_true] at h1
    simp only [h1, Bool.false_eq_true, if_false]
    by_cases h2 : (jsTrim p.query).length < 2
    · rw [if_pos h2]
      constructor
      · simp only [Option.isSome_some, true_iff]
        exact Or.inl h2
      · intro e he
        rw [← Option.some_inj.mp he]
    · rw [if_neg h2]
      cases hy : p.year with
      | none =>
        refine ⟨?_, by intro e he; simp at he⟩
        simp only [Option.isSome_none, Bool.false_eq_true, false_iff]
        intro hcon
        rcases hcon with h | ⟨y, hyy, _⟩
        · exact h2 h
        · cases hyy
      | some y =>
        dsimp only
        by_cases h3 : y ≠ 0 ∧ (y < 1888 ∨ y > cy + 1)
        · rw [if_pos h3]
          constructor
          · simp only [Option.isSome_some, true_iff]
            exact Or.inr ⟨y, rfl, h3⟩
          · intro e he
            rw [← Option.some_inj.mp he]
        · rw [if_neg h3]
          refine ⟨?_, by intro e he; simp at he⟩
          simp only [Option.isSome_none, Bool.false_eq_true, false_iff]
          intro hcon
          rcases hcon with h | ⟨z, hz, hz0, hzr⟩
          · exact h2 h
          · rw [Option.some_inj] at hz
            subst hz
            exact h3 ⟨hz0, hzr⟩

/-- C7 counterexample to the original claim: the query `"ab"` with the
supplied year `0` (outside `[1888, currentYear + 1]`) is accepted, so
"rejects iff ... year outside the range" fails at year 0. -/
theorem claim_C7_cex :
    ¬((validateSearchParams ⟨"ab".data, some 0⟩ 2026).isSome = true ↔
      ((jsTrim "ab".data).length < 2 ∨
        ((0:Int) < 1888 ∨ (0:Int) > 2026 + 1))) := by
  decide

/-- C7 witness: `"a"` is rejected with status 400, `"ab"` is
accepted. -/
theorem claim_C7_witness :
    (validateSearchParams ⟨"a".data, none⟩ 2026).isSome = true ∧
    (validateSearchParams ⟨"ab".data, none⟩ 2026).isSome = false ∧
    APIError.status ⟨"Search query must be at least 2 characters".data, 400⟩ =
      400 := by
  refine ⟨?_, by decide, (claim_C7 ⟨"a".data, none⟩ 2026).2 _ (by decide)⟩
  exact (claim_C7 ⟨"a".data, none⟩ 2026).1.mpr (Or.inl (by decide))

end Reel
